import Mathlib

/-!
The symbol downloader of query-pdb (`src/server/downloader.cpp`).

A shallow embedding of `downloader` and a verification of its specification.

Modelling decisions.

* `std::string` is `String`; a `Char` stands for one byte and `String.length` for `size()`.
* `uint32_t age` is a `Nat`; no arithmetic is done on it, so the theorems hold for every
  natural number and in particular for every 32-bit value.
* `std::filesystem::path` is the path text in POSIX generic format; `append`, `parent_path`
  and `replace_extension` are the lexical operations of the C++ standard library.
* The filesystem is a map from places to entries (regular file with its bytes, or
  directory). A place is named by its canonical path text; `exists`,
  `create_directories`, the opening of a file and `rename` resolve the path they are
  given first (`.`, `..`, repeated and trailing separators). Links, permissions and
  the position of the working directory are not modelled.
* The HTTP peer and the PDB parser are parameters of `download`.
* A C++ exception is the outcome `Outcome.raised`; logging is left out.
* `std::mutex` is left out: the embedding is of one call running alone.
-/

namespace QueryPdb

/-! ## Strings -/

/-- The `std::transform(result.begin(), result.end(), result.begin(), f)` of the source. -/
def transform (f : Char → Char) (s : String) : String := ⟨s.data.map f⟩

/-- The C `toupper` in the "C" locale. -/
def toupper (c : Char) : Char := c.toUpper

/-- The C `tolower` in the "C" locale. -/
def tolower (c : Char) : Char := c.toLower

set_option linter.unusedVariables false in
/-- Source lines 94-98: the copy `result` is transformed, and `s` is what is returned. -/
def to_upper (s : String) : String :=
  let result := transform toupper s
  s

set_option linter.unusedVariables false in
/-- Source lines 100-104: the copy `result` is transformed, and `s` is what is returned. -/
def to_lower (s : String) : String :=
  let result := transform tolower s
  s

/-- One hexadecimal digit, lower case, as `std::hex` prints it. -/
def hex_digit (d : Nat) : Char :=
  if d < 10 then Char.ofNat (48 + d) else Char.ofNat (87 + d)

/-- The hexadecimal digits of `n`, least significant first; `fuel` bounds the digit count. -/
def hex_rev : Nat → Nat → List Char
  | 0, _ => []
  | fuel + 1, n =>
    if n < 16 then [hex_digit n] else hex_digit (n % 16) :: hex_rev fuel (n / 16)

/-- What `ss << std::hex << age` appends for an unsigned `age`: base 16, no padding,
no `0x`. -/
def hex (n : Nat) : String := ⟨(hex_rev (n + 1) n).reverse⟩

/-- The value of one hexadecimal digit, `0` to `9` or `a` to `f`. -/
def hex_digit_value (c : Char) : Nat :=
  if c.isDigit then c.toNat - 48 else c.toNat - 87

/-- A text read as a hexadecimal number, most significant digit first. -/
def hex_value (s : String) : Nat :=
  s.data.foldl (fun acc c => 16 * acc + hex_digit_value c) 0

/-- Source lines 106-112. -/
def get_relative_path_str (name guid : String) (age : Nat) : String :=
  to_lower name ++ "/" ++ to_upper guid ++ hex age ++ "/" ++ to_lower name

/-- The spec's `lower`: ASCII letters to lower case. -/
def spec_lower (s : String) : String := transform tolower s

/-- The spec's `upper`: ASCII letters to upper case. -/
def spec_upper (s : String) : String := transform toupper s

/-- The spec's path derivation (spec 4.2), word for word:
`lower(name) + "/" + upper(guid) + hex(age) + "/" + lower(name)`. -/
def spec_relative_path (name guid : String) (age : Nat) : String :=
  spec_lower name ++ "/" ++ spec_upper guid ++ hex age ++ "/" ++ spec_lower name

/-! ## Paths (`std::filesystem::path`, POSIX, lexical) -/

namespace fs_path

/-- The directory separator test. -/
def is_sep (c : Char) : Bool := c = '/'

/-- Whether `has_filename()`: the text is not empty and does not end in a separator. -/
def has_filename (p : String) : Bool :=
  match p.data.getLast? with
  | some c => !is_sep c
  | none => false

/-- Whether `is_absolute()`: the text starts with the root directory. -/
def is_absolute (p : String) : Bool :=
  match p.data with
  | c :: _ => is_sep c
  | [] => false

/-- The `path::append` (`operator/=`): an absolute right operand replaces the path;
otherwise a separator is added when the left operand has a file name, and the right
operand follows. -/
def append (p q : String) : String :=
  if is_absolute q then q
  else if has_filename p then p ++ "/" ++ q
  else p ++ q

/-- The text with the separators at its end removed. -/
def strip_trailing_seps (s : List Char) : List Char :=
  (s.reverse.dropWhile is_sep).reverse

/-- The text with the characters after its last separator removed. -/
def strip_filename (s : List Char) : List Char :=
  (s.reverse.dropWhile (fun c => !is_sep c)).reverse

/-- The `path::filename`: the characters after the last separator. -/
def filename (p : String) : String :=
  ⟨(p.data.reverse.takeWhile (fun c => !is_sep c)).reverse⟩

/-- The `path::parent_path`: the path itself when it has no relative part (empty, or
separators only); otherwise everything up to the end of the last-but-one component. -/
def parent_path (p : String) : String :=
  let s := p.data
  if s.all is_sep then p
  else if has_filename p then
    let r := strip_filename s
    if r.all is_sep then ⟨r.take 1⟩ else ⟨strip_trailing_seps r⟩
  else ⟨strip_trailing_seps s⟩

/-- The length of the extension of a file name, dot included; 0 when there is none.
A file name of at most two characters that starts with a dot (`.`, `..`, `.a`) has no
extension, and a dot in first position starts no extension. -/
def extension_length (f : List Char) : Nat :=
  let after := f.reverse.takeWhile (fun c => c ≠ '.')
  if f.length ≤ 2 ∧ f.head? = some '.' then 0
  else if after.length = f.length then 0
  else if after.length + 1 = f.length then 0
  else after.length + 1

/-- The `path::replace_extension(replacement)`: the extension of the file name is
removed, a dot is added when the replacement is not empty and does not start with one,
and the replacement is appended. -/
def replace_extension (p replacement : String) : String :=
  let s := p.data
  let f := (filename p).data
  let kept := s.take (s.length - extension_length f)
  let dot := if replacement.data ≠ [] ∧ replacement.data.head? ≠ some '.' then ['.'] else []
  ⟨kept ++ dot ++ replacement.data⟩

end fs_path

/-! ## The filesystem -/

namespace fs_path

/-- The text cut at every separator; between two adjacent separators, and before a
leading or after a trailing one, the piece is empty. -/
def split : List Char → List (List Char)
  | [] => [[]]
  | c :: t =>
    if is_sep c then [] :: split t
    else
      match split t with
      | h :: r => (c :: h) :: r
      | [] => [[c]]

/-- The names between the separators of a text, in order. Repeated, leading and
trailing separators give no name. -/
def names (s : List Char) : List (List Char) :=
  (split s).filter (fun c => decide (c ≠ []))

/-- The components of a path. -/
def components (p : String) : List (List Char) := names p.data

/-- Whether none of the components of a path is `.` or `..`. -/
def has_no_dots (p : String) : Bool :=
  (components p).all (fun c => decide (c ≠ ['.']) && decide (c ≠ ['.', '.']))

/-- Whether a path is made of names only: it ends in a file name (not in a separator)
and none of its components is `.` or `..`. -/
def is_plain (p : String) : Bool :=
  has_filename p && has_no_dots p

end fs_path

/-- An entry of the filesystem. -/
inductive Node where
  | file (content : String)
  | directory
  deriving DecidableEq, Repr

/-- The filesystem: what is found at each place, if anything. A place is named by its
canonical text, the components that lead to it joined by `/` (after a leading `/` for an
absolute path); the operations below resolve a path to its place first. The working
directory, the root and the directories above the working directory are always there
and are not entries. Links are not modelled. -/
abbrev FS := String → Option Node

/-- The components joined by `/`. -/
def join_components (stack : List (List Char)) : List Char :=
  stack.foldl (fun acc c => if acc = [] then c else acc ++ '/' :: c) []

/-- The canonical text of the place reached from the root (`absolute`) or from the
working directory through the components of `stack`. -/
def location_key (absolute : Bool) (stack : List (List Char)) : String :=
  ⟨(if absolute then ['/'] else []) ++ join_components stack⟩

/-- Whether a place is one that is always there: the start itself, or a directory above
the working directory. -/
def is_start (stack : List (List Char)) : Bool :=
  stack.all (fun c => decide (c = ['.', '.']))

/-- Whether the place reached through `stack` is a directory. -/
def is_directory_at (fs : FS) (absolute : Bool) (stack : List (List Char)) : Bool :=
  is_start stack || decide (fs (location_key absolute stack) = some Node.directory)

/-- The place `..` leads to: the directory above; the root is above itself. -/
def step_up (absolute : Bool) (stack : List (List Char)) : List (List Char) :=
  if is_start stack then (if absolute then [] else stack ++ [['.', '.']])
  else stack.dropLast

/-- Path resolution: from the place `stack`, follow the components. `.` and `..` need
the place they are met at to be a directory; a name leads below. `none` when the
resolution fails. A name is followed without a look at the place it is met at: where
every entry lies in a directory, nothing is found below a place that is no directory. -/
def walk (fs : FS) (absolute : Bool) :
    List (List Char) → List (List Char) → Option (List (List Char))
  | stack, [] => some stack
  | stack, c :: rest =>
    if c = ['.'] then
      if is_directory_at fs absolute stack then walk fs absolute stack rest else none
    else if c = ['.', '.'] then
      if is_directory_at fs absolute stack then walk fs absolute (step_up absolute stack) rest
      else none
    else walk fs absolute (stack ++ [c]) rest

/-- The `std::filesystem::status` of a path, `none` for what is not found: the path is
resolved, and a path that ends in a separator names a directory only. -/
def fs_lookup (fs : FS) (p : String) : Option Node :=
  if p = "" then none
  else
    match walk fs (fs_path.is_absolute p) [] (fs_path.components p) with
    | none => none
    | some stack =>
      if is_start stack then some Node.directory
      else
        match fs (location_key (fs_path.is_absolute p) stack) with
        | some Node.directory => some Node.directory
        | some (Node.file content) =>
          if fs_path.has_filename p then some (Node.file content) else none
        | none => none

/-- The `std::filesystem::exists`. -/
def fs_exists (fs : FS) (p : String) : Bool := (fs_lookup fs p).isSome

/-- The walk of `create_directories` along the components of its path: a name that is
missing is created as a directory, one that is a directory is entered, one that is a
regular file stops the walk, which then fails (`false`) with what it has created so far;
`.` stays and `..` goes up. -/
def make_directories (absolute : Bool) :
    FS → List (List Char) → List (List Char) → FS × Bool
  | fs, _, [] => (fs, true)
  | fs, stack, c :: rest =>
    if c = ['.'] then make_directories absolute fs stack rest
    else if c = ['.', '.'] then make_directories absolute fs (step_up absolute stack) rest
    else
      match fs (location_key absolute (stack ++ [c])) with
      | some Node.directory => make_directories absolute fs (stack ++ [c]) rest
      | some (Node.file _) => (fs, false)
      | none =>
        make_directories absolute
          (fun q =>
            if q = location_key absolute (stack ++ [c]) then some Node.directory else fs q)
          (stack ++ [c]) rest

/-- The `std::filesystem::create_directories`: raises (`none`) on the empty path and
when a component on the way is a regular file; otherwise creates every directory that is
missing on the way, those before a `..` included. -/
def create_directories (fs : FS) (p : String) : Option FS :=
  if p = "" then none
  else
    match make_directories (fs_path.is_absolute p) fs [] (fs_path.components p) with
    | (fs1, true) => some fs1
    | (_, false) => none

/-- What `create_directories` leaves when it raises: the directories it created before
it met the regular file. -/
def directories_left (fs : FS) (p : String) : FS :=
  if p = "" then fs
  else (make_directories (fs_path.is_absolute p) fs [] (fs_path.components p)).1

/-- The place where a regular file of the path `p` is, or is created: `p` ends in a
name other than `.` and `..`, the path before that name resolves to a directory, and no
directory is at the place. `none` otherwise. -/
def open_target (fs : FS) (p : String) : Option String :=
  if fs_path.has_filename p = false then none
  else
    match (fs_path.components p).getLast? with
    | none => none
    | some name =>
      if name = ['.'] ∨ name = ['.', '.'] then none
      else
        match walk fs (fs_path.is_absolute p) [] (fs_path.components p).dropLast with
        | none => none
        | some stack =>
          if is_directory_at fs (fs_path.is_absolute p) stack then
            if fs (location_key (fs_path.is_absolute p) (stack ++ [name]))
                = some Node.directory then none
            else some (location_key (fs_path.is_absolute p) (stack ++ [name]))
          else none

/-- Whether `std::ofstream f(p, std::ios::binary)` opens: `p` names no directory and the
directory it lies in exists. -/
def can_open (fs : FS) (p : String) : Bool := (open_target fs p).isSome

/-- Opening truncates and `f.write(body)` stores the bytes, at the place `p` resolves
to; nothing is stored when the file does not open. -/
def write_file (fs : FS) (p body : String) : FS :=
  match open_target fs p with
  | some key => fun q => if q = key then some (Node.file body) else fs q
  | none => fs

/-- The `std::filesystem::rename` of a regular file: nothing happens when both paths
resolve to the same existing file, an existing regular file at the destination is
replaced, and the call raises (`none`) when the origin is no regular file, when the
destination is a directory, when the directory of the destination is missing, and when
the destination names no file (it is empty, ends in a separator, or its last component
is `.` or `..`). `download` renames only the regular file it has just written; a
directory as origin is outside the model and reported as raising. -/
def rename (fs : FS) (old_p new_p : String) : Option FS :=
  match open_target fs old_p, open_target fs new_p with
  | some old_key, some new_key =>
    match fs old_key with
    | some (Node.file content) =>
      if old_key = new_key then some fs
      else some (fun q =>
        if q = new_key then some (Node.file content)
        else if q = old_key then none else fs q)
    | _ => none
  | _, _ => none

/-! ## The collaborators -/

/-- The exceptions `download` can let through. -/
inductive Exn where
  | invalid_argument
  | out_of_range
  | filesystem_error
  | parser_error
  deriving DecidableEq, Repr

/-- How a call ends: it returns a boolean, or it raises. -/
inductive Outcome where
  | returned (b : Bool)
  | raised (e : Exn)
  deriving DecidableEq, Repr

/-- What a numeric conversion gives: the number, or the exception it raises. -/
inductive Converted where
  | value (v : Nat)
  | raised (e : Exn)
  deriving DecidableEq, Repr

/-- The C `isspace` in the "C" locale. -/
def isspace (c : Char) : Bool :=
  c = ' ' || c = '\t' || c = '\n' || c = '\x0b' || c = '\x0c' || c = '\r'

/-- The value of a run of decimal digits. -/
def decimal_value (ds : List Char) : Nat :=
  ds.foldl (fun acc c => 10 * acc + (c.toNat - 48)) 0

/-- The largest `unsigned long` (LP64). -/
def ULONG_MAX : Nat := 2 ^ 64 - 1

/-- The `std::stoul(str)` (base 10): white space is skipped, a sign is accepted, the
longest run of digits is converted and what follows is ignored. It raises
`invalid_argument` when there is no digit and `out_of_range` when the number does not
fit; a minus sign negates in the unsigned type. -/
def stoul (str : String) : Converted :=
  let t := str.data.dropWhile isspace
  let signed : Bool × List Char :=
    match t with
    | '-' :: r => (true, r)
    | '+' :: r => (false, r)
    | _ => (false, t)
  let ds := signed.2.takeWhile Char.isDigit
  if ds = [] then Converted.raised Exn.invalid_argument
  else
    let v := decimal_value ds
    if v > ULONG_MAX then Converted.raised Exn.out_of_range
    else Converted.value (if signed.1 then (2 ^ 64 - v) % 2 ^ 64 else v)

/-- The part of an `httplib::Response` that `download` reads: the status, the value of
the `Content-Length` header when there is one, and the body. -/
structure Response where
  status : Int
  content_length : Option String
  body : String
  deriving DecidableEq, Repr

/-- The HTTP peer as `httplib::Client(host).Get(path)` sees it, redirects followed:
`none` is the null result of a failed transfer. -/
abbrev Server := String → String → Option Response

/-- Modelled from the spec: `pdb_stats` is declared in `pdb_parser.h`, which is not among
the sources; the spec (4.4, 6) gives it a type-information count, an unsigned integer. -/
structure pdb_stats where
  type_count : Nat
  deriving DecidableEq, Repr

/-- The parser collaborator `pdb_parser(path).get_stats()`, a parameter: from the
filesystem and a path to the statistics, `none` when it raises. -/
abbrev Parser := FS → String → Option pdb_stats

/-! ## The server address -/

/-- The characters the ECMAScript `.` does not match. -/
def is_line_terminator (c : Char) : Bool := c = '\n' || c = '\r'

/-- The tail `[^\/]+)(\/.*)$` of the regular expression against the whole of `s`, with
`scheme` already consumed by the first group: the host is the longest run without a
separator (a shorter one is not followed by a separator) and is not empty, the second
group starts at the separator after it and holds no line terminator. -/
def match_host_rest (scheme s : List Char) : Option (String × String) :=
  let host := s.takeWhile (fun c => !fs_path.is_sep c)
  let rest := s.dropWhile (fun c => !fs_path.is_sep c)
  match host, rest with
  | _ :: _, _ :: after =>
    if after.all (fun c => !is_line_terminator c) then some (⟨scheme ++ host⟩, ⟨rest⟩)
    else none
  | _, _ => none

/-- The `std::regex_match` of source line 125 with
`^((?:(?:http|https):\/\/)?[^\/]+)(\/.*)$`: the two groups of the match. The optional
scheme is tried first (`http`, then `https`), then the match without it. -/
def regex_match_server (s : String) : Option (String × String) :=
  let c := s.data
  let with_http :=
    if "http://".data.isPrefixOf c then match_host_rest "http://".data (c.drop 7) else none
  let with_https :=
    if "https://".data.isPrefixOf c then match_host_rest "https://".data (c.drop 8) else none
  match with_http with
  | some m => some m
  | none =>
    match with_https with
    | some m => some m
    | none => match_host_rest [] c

/-- Source lines 121-130, on the member `server_`. -/
def split_server_name (server_ : String) : String × String :=
  match regex_match_server server_ with
  | none => ("", "")
  | some m => (m.1, m.2)

/-- Whether a text starts with a host: its first character is not a separator. -/
def starts_with_host (t : List Char) : Bool :=
  match t with
  | c :: _ => !fs_path.is_sep c
  | [] => false

/-- What follows the first separator of a text. -/
def after_first_sep (t : List Char) : List Char :=
  (t.dropWhile (fun c => !fs_path.is_sep c)).drop 1

/-- The part of a server URL that follows the separator after the host, used to state
which URLs the expression matches. The host starts after `http://` or `https://` when
the URL starts so and a host follows, and at the start of the URL otherwise. -/
def url_path_tail (s : String) : List Char :=
  if "http://".data.isPrefixOf s.data ∧ starts_with_host (s.data.drop 7) then
    after_first_sep (s.data.drop 7)
  else if "https://".data.isPrefixOf s.data ∧ starts_with_host (s.data.drop 8) then
    after_first_sep (s.data.drop 8)
  else after_first_sep s.data

/-- Whether `[^\/]+)(\/.*)$` matches a text: a host starts it, a separator follows, and
no line terminator comes after that separator. -/
def host_rest_ok (t : List Char) : Prop :=
  starts_with_host t = true ∧ t.dropWhile (fun c => !fs_path.is_sep c) ≠ []
    ∧ ∀ c ∈ after_first_sep t, is_line_terminator c = false

/-! ## The downloader -/

/-- The members of `downloader` (the mutex apart). -/
structure downloader where
  valid_ : Bool
  path_ : String
  server_ : String
  server_split_ : String × String
  deriving DecidableEq, Repr

/-- The normalisation of source lines 22-24: a separator is appended when the text does
not end in one. -/
def normalize_server (server : String) : String :=
  if server.data.getLast? ≠ some '/' then server.push '/' else server

/-- Source lines 12-33, the constructor. -/
def downloader.construct (path server : String) : downloader :=
  if server = "" ∨ path = "" then
    { valid_ := false, path_ := path, server_ := server, server_split_ := ("", "") }
  else
    let server_ := normalize_server server
    let server_split_ := split_server_name server_
    if server_split_.1 = "" then
      { valid_ := false, path_ := path, server_ := server_, server_split_ := server_split_ }
    else
      { valid_ := true, path_ := path, server_ := server_, server_split_ := server_split_ }

/-- Source lines 35-37. -/
def downloader.valid (d : downloader) : Bool := d.valid_

/-- Source lines 114-119. -/
def downloader.get_path (d : downloader) (name guid : String) (age : Nat) : String :=
  let relative_path := get_relative_path_str name guid age
  fs_path.append d.path_ relative_path

/-- Source lines 132-145: `none` when the parser raises. -/
def downloader.is_valid_pdb (parser : Parser) (fs : FS) (name path : String) :
    Option Bool :=
  match parser fs path with
  | none => none
  | some stats =>
    let lower_name := to_lower name
    if lower_name = "ntoskrnl.pdb" ∨ lower_name = "ntkrnlmp.pdb" then
      if stats.type_count = 0 then some false else some true
    else some true

/-- What a call of `download` leaves: its outcome, the filesystem, and the HTTP requests
it issued (host of the client, path of the `Get`). -/
structure Result where
  outcome : Outcome
  fs : FS
  requests : List (String × String)

/-- Source lines 39-92. -/
def downloader.download (d : downloader) (server : Server) (parser : Parser) (fs : FS)
    (name guid : String) (age : Nat) : Result :=
  let relative_path := get_relative_path_str name guid age
  let path := fs_path.append d.path_ relative_path
  if fs_exists fs path then ⟨Outcome.returned true, fs, []⟩
  else
    let request := (d.server_split_.1, d.server_split_.2 ++ relative_path)
    match server request.1 request.2 with
    | none => ⟨Outcome.returned false, fs, [request]⟩
    | some res =>
      if res.status ≠ 200 then ⟨Outcome.returned false, fs, [request]⟩
      else
        let parsed : Converted :=
          match res.content_length with
          | some value => stoul value
          | none => Converted.value 0
        match parsed with
        | Converted.raised e => ⟨Outcome.raised e, fs, [request]⟩
        | Converted.value content_length =>
          if content_length = 0 ∨ content_length ≠ res.body.length then
            ⟨Outcome.returned false, fs, [request]⟩
          else
            match create_directories fs (fs_path.parent_path path) with
            | none =>
              ⟨Outcome.raised Exn.filesystem_error,
                directories_left fs (fs_path.parent_path path), [request]⟩
            | some fs1 =>
              let tmp_path := fs_path.replace_extension path ".tmp"
              if !can_open fs1 tmp_path then ⟨Outcome.returned false, fs1, [request]⟩
              else
                let fs2 := write_file fs1 tmp_path res.body
                match downloader.is_valid_pdb parser fs2 name tmp_path with
                | none => ⟨Outcome.raised Exn.parser_error, fs2, [request]⟩
                | some false => ⟨Outcome.returned false, fs2, [request]⟩
                | some true =>
                  match rename fs2 tmp_path path with
                  | none => ⟨Outcome.raised Exn.filesystem_error, fs2, [request]⟩
                  | some fs3 => ⟨Outcome.returned true, fs3, [request]⟩

/-! ## Concrete inputs used below -/

/-- A peer that answers every request with status 200, `Content-Length: 3` and the
three bytes `abc`. -/
def server_abc : Server := fun _ _ => some ⟨200, some "3", "abc"⟩

/-- A peer that answers every request with status 200, `Content-Length: 5` and the
three bytes `abc`. -/
def server_short : Server := fun _ _ => some ⟨200, some "5", "abc"⟩

/-- A peer from which no transfer succeeds. -/
def server_down : Server := fun _ _ => none

/-- A parser that reports `n` as the type-information count of every file. -/
def parser_count (n : Nat) : Parser := fun _ _ => some ⟨n⟩

/-- The empty filesystem. -/
def fs_empty : FS := fun _ => none

/-- A filesystem with one regular file. -/
def fs_single (p content : String) : FS :=
  fun q => if q = p then some (Node.file content) else none

/-- A peer that answers every request with status 200, the given `Content-Length` value
and the three bytes `abc`. -/
def server_with_length (value : String) : Server := fun _ _ => some ⟨200, some value, "abc"⟩

/-- A parser that raises on every file. -/
def parser_raises : Parser := fun _ _ => none

/-! ## Facts about the rendering and the paths -/

theorem hex_digit_not_sep (k : Nat) (h : k < 16) : fs_path.is_sep (hex_digit k) = false := by
  interval_cases k <;> decide

theorem hex_rev_head (n : Nat) :
    ∃ k, k < 16 ∧ ∃ t, hex_rev (n + 1) n = hex_digit k :: t := by
  by_cases h : n < 16
  · exact ⟨n, h, [], by simp [hex_rev, h]⟩
  · exact ⟨n % 16, Nat.mod_lt _ (by decide), hex_rev n (n / 16), by simp [hex_rev, h]⟩

theorem hex_rev_fuel :
    ∀ (fuel n : Nat), n < fuel → hex_rev (fuel + 1) n = hex_rev fuel n := by
  intro fuel
  induction fuel with
  | zero => intro n h; exact absurd h (Nat.not_lt_zero _)
  | succ k ih =>
    intro n h
    by_cases h16 : n < 16
    · simp [hex_rev, h16]
    · have hstep := ih (n / 16) (by omega)
      rw [hex_rev, if_neg h16, hstep]
      conv_rhs => rw [hex_rev, if_neg h16]

theorem hex_digit_value_hex_digit (k : Nat) (h : k < 16) :
    hex_digit_value (hex_digit k) = k := by
  interval_cases k <;> decide

theorem hex_digit_mem (k : Nat) (h : k < 16) :
    hex_digit k ∈ "0123456789abcdef".data := by
  interval_cases k <;> decide

theorem hex_digit_zero (k : Nat) (h : k < 16) (hz : hex_digit k = '0') : k = 0 := by
  interval_cases k <;> first | rfl | exact absurd hz (by decide)

theorem hex_rev_digits :
    ∀ (fuel n : Nat) (c : Char), c ∈ hex_rev fuel n → ∃ k, k < 16 ∧ c = hex_digit k := by
  intro fuel
  induction fuel with
  | zero => intro n c hc; simp [hex_rev] at hc
  | succ f ih =>
    intro n c hc
    by_cases h16 : n < 16
    · simp only [hex_rev, h16, if_true, List.mem_singleton] at hc
      exact ⟨n, h16, hc⟩
    · simp only [hex_rev, h16, if_false, List.mem_cons] at hc
      rcases hc with rfl | hmem
      · exact ⟨n % 16, Nat.mod_lt _ (by decide), rfl⟩
      · exact ih _ c hmem

theorem hex_rev_value :
    ∀ (fuel n : Nat), n < fuel →
      (hex_rev fuel n).foldr (fun c acc => 16 * acc + hex_digit_value c) 0 = n := by
  intro fuel
  induction fuel with
  | zero => intro n h; exact absurd h (Nat.not_lt_zero _)
  | succ f ih =>
    intro n h
    by_cases h16 : n < 16
    · simp only [hex_rev, h16, if_true, List.foldr_cons, List.foldr_nil]
      rw [hex_digit_value_hex_digit n h16]
      omega
    · simp only [hex_rev, h16, if_false, List.foldr_cons]
      rw [ih (n / 16) (by omega), hex_digit_value_hex_digit _ (Nat.mod_lt _ (by decide))]
      omega

theorem hex_rev_last :
    ∀ (fuel n : Nat), n < fuel → 0 < n →
      ∃ m, 0 < m ∧ m < 16 ∧ (hex_rev fuel n).getLast? = some (hex_digit m) := by
  intro fuel
  induction fuel with
  | zero => intro n h; exact absurd h (Nat.not_lt_zero _)
  | succ f ih =>
    intro n h hpos
    by_cases h16 : n < 16
    · exact ⟨n, hpos, h16, by simp [hex_rev, h16]⟩
    · obtain ⟨m, hm0, hm16, hlast⟩ := ih (n / 16) (by omega) (by omega)
      refine ⟨m, hm0, hm16, ?_⟩
      simp only [hex_rev, h16, if_false]
      rw [List.getLast?_cons, hlast]
      rfl

theorem hex_value_hex (n : Nat) : hex_value (hex n) = n := by
  unfold hex_value hex
  simp only
  rw [List.foldl_reverse]
  exact hex_rev_value (n + 1) n (Nat.lt_succ_self n)

theorem hex_injective (a b : Nat) (h : hex a = hex b) : a = b := by
  rw [← hex_value_hex a, ← hex_value_hex b, h]

theorem hex_first_digit (n : Nat) (h : (hex n).data.head? = some '0') : n = 0 := by
  by_contra hne
  obtain ⟨m, hm0, hm16, hlast⟩ := hex_rev_last (n + 1) n (Nat.lt_succ_self n)
    (Nat.pos_of_ne_zero hne)
  unfold hex at h
  simp only [List.head?_reverse] at h
  rw [hlast] at h
  have := hex_digit_zero m hm16 (Option.some.inj h)
  omega

theorem hex_digits (n : Nat) : ∀ c ∈ (hex n).data, c ∈ "0123456789abcdef".data := by
  intro c hc
  unfold hex at hc
  simp only [List.mem_reverse] at hc
  obtain ⟨k, hk, rfl⟩ := hex_rev_digits _ _ c hc
  exact hex_digit_mem k hk

theorem split_at_first (a : Char) :
    ∀ (l1 l2 r1 r2 : List Char), a ∉ l1 → a ∉ l2 → l1 ++ a :: r1 = l2 ++ a :: r2 →
      l1 = l2 ∧ r1 = r2 := by
  intro l1
  induction l1 with
  | nil =>
    intro l2 r1 r2 _ h2 h
    cases l2 with
    | nil => simpa using h
    | cons b t =>
      simp only [List.nil_append, List.cons_append, List.cons.injEq] at h
      exact absurd (h.1 ▸ List.mem_cons_self _ _) h2
  | cons x t ih =>
    intro l2 r1 r2 h1 h2 h
    cases l2 with
    | nil =>
      simp only [List.nil_append, List.cons_append, List.cons.injEq] at h
      exact absurd (h.1 ▸ List.mem_cons_self _ _) h1
    | cons b t2 =>
      simp only [List.cons_append, List.cons.injEq] at h
      obtain ⟨hx, ht⟩ := ih t2 r1 r2 (fun hm => h1 (List.mem_cons_of_mem _ hm))
        (fun hm => h2 (List.mem_cons_of_mem _ hm)) h.2
      exact ⟨by rw [h.1, hx], ht⟩

theorem hex_has_non_sep (n : Nat) : ∃ c ∈ (hex n).data, fs_path.is_sep c = false := by
  obtain ⟨k, hk, t, ht⟩ := hex_rev_head n
  exact ⟨hex_digit k, by simp [hex, ht], hex_digit_not_sep k hk⟩

theorem relative_path_has_non_sep (name guid : String) (age : Nat) :
    ∃ c ∈ (get_relative_path_str name guid age).data, fs_path.is_sep c = false := by
  obtain ⟨c, hc, hs⟩ := hex_has_non_sep age
  refine ⟨c, ?_, hs⟩
  simp only [get_relative_path_str, String.data_append, List.mem_append]
  tauto

theorem append_data_suffix (p q : String) :
    ∃ front, (fs_path.append p q).data = front ++ q.data := by
  unfold fs_path.append
  split
  · exact ⟨[], rfl⟩
  · split
    · exact ⟨p.data ++ "/".data, by simp⟩
    · exact ⟨p.data, by simp⟩

theorem target_not_all_sep (root name guid : String) (age : Nat) :
    (fs_path.append root (get_relative_path_str name guid age)).data.all fs_path.is_sep
      = false := by
  obtain ⟨c, hc, hs⟩ := relative_path_has_non_sep name guid age
  obtain ⟨front, hfront⟩ := append_data_suffix root (get_relative_path_str name guid age)
  rw [hfront]
  apply Bool.eq_false_iff.mpr
  intro hall
  rw [List.all_eq_true] at hall
  have := hall c (List.mem_append_right _ hc)
  rw [hs] at this
  exact Bool.false_ne_true this

theorem strip_trailing_seps_length_le (s : List Char) :
    (fs_path.strip_trailing_seps s).length ≤ s.length := by
  unfold fs_path.strip_trailing_seps
  rw [List.length_reverse]
  exact le_trans (List.dropWhile_sublist _).length_le (by simp)

theorem strip_filename_length_le (s : List Char) :
    (fs_path.strip_filename s).length ≤ s.length := by
  unfold fs_path.strip_filename
  rw [List.length_reverse]
  exact le_trans (List.dropWhile_sublist _).length_le (by simp)

theorem parent_path_length_le (p : String) :
    (fs_path.parent_path p).data.length ≤ p.data.length := by
  unfold fs_path.parent_path
  simp only
  split
  · exact le_refl _
  · split
    · split
      · exact le_trans (List.length_take_le' _ _) (strip_filename_length_le _)
      · exact le_trans (strip_trailing_seps_length_le _) (strip_filename_length_le _)
    · exact strip_trailing_seps_length_le _

theorem parent_path_length_lt (p : String) (h : p.data.all fs_path.is_sep = false) :
    (fs_path.parent_path p).data.length < p.data.length := by
  rcases List.eq_nil_or_concat p.data with hnil | ⟨front, last, hcat⟩
  · rw [hnil] at h
    simp at h
  · unfold fs_path.parent_path
    simp only [h, Bool.false_eq_true, if_false]
    have hlen : p.data.length = front.length + 1 := by rw [hcat]; simp
    by_cases hsep : fs_path.is_sep last = true
    · have hf : fs_path.has_filename p = false := by
        simp [fs_path.has_filename, hcat, hsep]
      simp only [hf, Bool.false_eq_true, if_false]
      have : fs_path.strip_trailing_seps p.data = fs_path.strip_trailing_seps front := by
        simp [fs_path.strip_trailing_seps, hcat, hsep]
      rw [this, hlen]
      exact Nat.lt_succ_of_le (strip_trailing_seps_length_le front)
    · have hf : fs_path.has_filename p = true := by
        simp [fs_path.has_filename, hcat, hsep]
      simp only [hf, if_true]
      have hstrip : fs_path.strip_filename p.data = fs_path.strip_filename front := by
        simp [fs_path.strip_filename, hcat, hsep]
      rw [hstrip, hlen]
      split
      · exact Nat.lt_succ_of_le
          (le_trans (List.length_take_le' _ _) (strip_filename_length_le front))
      · exact Nat.lt_succ_of_le
          (le_trans (strip_trailing_seps_length_le _) (strip_filename_length_le front))

/-! ## Facts about the filesystem operations -/

theorem split_ne_nil (s : List Char) : fs_path.split s ≠ [] := by
  cases s with
  | nil => simp [fs_path.split]
  | cons c t =>
    unfold fs_path.split
    split
    · simp
    · split <;> simp

theorem split_append_sep (a b : List Char) :
    fs_path.split (a ++ '/' :: b) = fs_path.split a ++ fs_path.split b := by
  induction a with
  | nil => simp [fs_path.split, fs_path.is_sep]
  | cons c t ih =>
    by_cases hc : fs_path.is_sep c = true
    · simp [fs_path.split, hc, ih]
    · cases hs : fs_path.split t with
      | nil => exact absurd hs (split_ne_nil t)
      | cons h r =>
        simp only [List.cons_append, fs_path.split, hc, Bool.false_eq_true, if_false]
        rw [show t.append ('/' :: b) = t ++ '/' :: b from rfl, ih, hs]
        rfl

theorem split_no_sep (f : List Char) (h : ∀ c ∈ f, fs_path.is_sep c = false) :
    fs_path.split f = [f] := by
  induction f with
  | nil => rfl
  | cons c t ih =>
    have hc := h c (List.mem_cons_self _ _)
    have ht := ih (fun x hx => h x (List.mem_cons_of_mem _ hx))
    simp [fs_path.split, hc, ht]

theorem names_append_sep (a b : List Char) :
    fs_path.names (a ++ '/' :: b) = fs_path.names a ++ fs_path.names b := by
  simp [fs_path.names, split_append_sep]

theorem names_nil : fs_path.names [] = [] := by
  decide

theorem names_no_sep (f : List Char) (hne : f ≠ [])
    (h : ∀ c ∈ f, fs_path.is_sep c = false) : fs_path.names f = [f] := by
  simp [fs_path.names, split_no_sep f h, hne]

theorem names_append_single_sep (a : List Char) :
    fs_path.names (a ++ ['/']) = fs_path.names a := by
  rw [names_append_sep, names_nil, List.append_nil]

theorem names_ne_nil_mem (s : List Char) : ∀ c ∈ fs_path.names s, c ≠ [] := by
  intro c hc
  simpa [fs_path.names] using (List.mem_filter.mp hc).2

theorem names_all_sep (s : List Char) (h : s.all fs_path.is_sep = true) :
    fs_path.names s = [] := by
  induction s with
  | nil => exact names_nil
  | cons c t ih =>
    simp only [List.all_cons, Bool.and_eq_true] at h
    have hc : c = '/' := by simpa [fs_path.is_sep] using h.1
    subst hc
    have := names_append_sep [] t
    simp only [List.nil_append] at this
    rw [this, names_nil, ih h.2, List.append_nil]

theorem names_strip_trailing_seps (s : List Char) :
    fs_path.names (fs_path.strip_trailing_seps s) = fs_path.names s := by
  unfold fs_path.strip_trailing_seps
  have key : ∀ l : List Char,
      fs_path.names (l.dropWhile fs_path.is_sep).reverse = fs_path.names l.reverse := by
    intro l
    induction l with
    | nil => rfl
    | cons c t ih =>
      by_cases hc : fs_path.is_sep c = true
      · have hc2 : c = '/' := by simpa [fs_path.is_sep] using hc
        rw [List.dropWhile_cons_of_pos hc, ih, List.reverse_cons, hc2,
          names_append_single_sep]
      · rw [List.dropWhile_cons_of_neg hc]
  have := key s.reverse
  rwa [List.reverse_reverse] at this

theorem filename_parts (p : String) (h : fs_path.has_filename p = true) :
    p.data = fs_path.strip_filename p.data ++ (fs_path.filename p).data
      ∧ (fs_path.filename p).data ≠ []
      ∧ (∀ c ∈ (fs_path.filename p).data, fs_path.is_sep c = false)
      ∧ (fs_path.filename p).data.getLast? = p.data.getLast?
      ∧ (fs_path.strip_filename p.data = []
        ∨ ∃ r, fs_path.strip_filename p.data = r ++ ['/']) := by
  have hsplit : p.data = fs_path.strip_filename p.data ++ (fs_path.filename p).data := by
    unfold fs_path.strip_filename fs_path.filename
    simp only
    rw [← List.reverse_append, List.takeWhile_append_dropWhile, List.reverse_reverse]
  have hplain : ∀ c ∈ (fs_path.filename p).data, fs_path.is_sep c = false := by
    intro c hc
    unfold fs_path.filename at hc
    simp only [List.mem_reverse] at hc
    simpa using List.mem_takeWhile_imp hc
  have hne : (fs_path.filename p).data ≠ [] := by
    intro hnil
    unfold fs_path.has_filename at h
    rcases List.eq_nil_or_concat p.data with hp | ⟨front, last, hp⟩
    · simp [hp] at h
    · have hl : fs_path.is_sep last = false := by simpa [hp] using h
      unfold fs_path.filename at hnil
      simp [hp, hl] at hnil
  refine ⟨hsplit, hne, hplain, ?_, ?_⟩
  · conv_rhs => rw [hsplit]
    rw [List.getLast?_append]
    cases hl : (fs_path.filename p).data.getLast? with
    | none => exact absurd (List.getLast?_eq_none_iff.mp hl) hne
    | some c => rfl
  · unfold fs_path.strip_filename
    cases hd : List.dropWhile (fun c => !fs_path.is_sep c) p.data.reverse with
    | nil => exact Or.inl rfl
    | cons c t =>
      right
      have hc := List.head_dropWhile_not (fun c => !fs_path.is_sep c) p.data.reverse
        (by rw [hd]; simp)
      simp only [hd, List.head_cons] at hc
      have hc2 : c = '/' := by simpa [fs_path.is_sep] using hc
      exact ⟨t.reverse, by simp [hc2]⟩

theorem components_filename (p : String) (h : fs_path.has_filename p = true) :
    fs_path.components p
      = fs_path.names (fs_path.strip_filename p.data) ++ [(fs_path.filename p).data] := by
  obtain ⟨hsplit, hne, hplain, _, hstrip⟩ := filename_parts p h
  unfold fs_path.components
  conv_lhs => rw [hsplit]
  rcases hstrip with hnil | ⟨r, hr⟩
  · rw [hnil, List.nil_append, names_nil, List.nil_append, names_no_sep _ hne hplain]
  · rw [hr, List.append_assoc, List.singleton_append, names_append_sep,
      names_append_single_sep, names_no_sep _ hne hplain]

theorem has_filename_not_all_sep (p : String) (h : fs_path.has_filename p = true) :
    p.data.all fs_path.is_sep = false := by
  unfold fs_path.has_filename at h
  rcases List.eq_nil_or_concat p.data with hp | ⟨front, last, hp⟩
  · simp [hp] at h
  · have hl : fs_path.is_sep last = false := by simpa [hp] using h
    simp [hp, hl]

theorem components_parent_path (p : String) (h : fs_path.has_filename p = true) :
    fs_path.components (fs_path.parent_path p)
      = fs_path.names (fs_path.strip_filename p.data) := by
  unfold fs_path.components fs_path.parent_path
  simp only [has_filename_not_all_sep p h, Bool.false_eq_true, if_false, h, if_true]
  split
  · rename_i hall
    rw [names_all_sep _ hall]
    apply names_all_sep
    rw [List.all_eq_true] at hall ⊢
    intro x hx
    exact hall x (List.mem_of_mem_take hx)
  · exact names_strip_trailing_seps _

theorem parent_path_is_prefix (p : String) :
    (fs_path.parent_path p).data <+: p.data := by
  have hstrip : ∀ l : List Char, fs_path.strip_trailing_seps l <+: l := by
    intro l
    unfold fs_path.strip_trailing_seps
    have := List.reverse_prefix.mpr (List.dropWhile_suffix fs_path.is_sep (l := l.reverse))
    rwa [List.reverse_reverse] at this
  have hfile : fs_path.strip_filename p.data <+: p.data := by
    unfold fs_path.strip_filename
    have := List.reverse_prefix.mpr
      (List.dropWhile_suffix (fun c => !fs_path.is_sep c) (l := p.data.reverse))
    rwa [List.reverse_reverse] at this
  unfold fs_path.parent_path
  simp only
  split
  · exact List.prefix_refl _
  · split
    · split
      · exact (List.take_prefix _ _).trans hfile
      · exact (hstrip _).trans hfile
    · exact hstrip _

theorem parent_path_is_absolute (p : String) (h : fs_path.parent_path p ≠ "") :
    fs_path.is_absolute (fs_path.parent_path p) = fs_path.is_absolute p := by
  obtain ⟨t, ht⟩ := parent_path_is_prefix p
  unfold fs_path.is_absolute
  cases hq : (fs_path.parent_path p).data with
  | nil => exact absurd (String.ext hq) h
  | cons c r =>
    rw [hq] at ht
    rw [← ht]
    rfl

theorem join_components_snoc (stack : List (List Char)) (f : List Char) :
    join_components (stack ++ [f])
      = if join_components stack = [] then f else join_components stack ++ '/' :: f := by
  simp [join_components, List.foldl_append]

theorem join_components_length_le (stack more : List (List Char)) :
    (join_components stack).length ≤ (join_components (stack ++ more)).length := by
  induction more generalizing stack with
  | nil => simp
  | cons x rest ih =>
    have h1 : (join_components stack).length ≤ (join_components (stack ++ [x])).length := by
      rw [join_components_snoc]
      split
      · rename_i hnil
        simp [hnil]
      · simp
    have h2 := ih (stack ++ [x])
    rw [List.append_assoc, List.singleton_append] at h2
    exact le_trans h1 h2

theorem join_components_length_lt (stack : List (List Char)) (f : List Char)
    (hne : f ≠ []) :
    (join_components stack).length < (join_components (stack ++ [f])).length := by
  rw [join_components_snoc]
  split
  · rename_i hnil
    rw [hnil]
    exact List.length_pos.mpr hne
  · simp

theorem join_components_last (stack : List (List Char)) (f : List Char) (hne : f ≠ []) :
    (join_components (stack ++ [f])).getLast? = f.getLast? := by
  rw [join_components_snoc]
  cases hl : f.getLast? with
  | none => exact absurd (List.getLast?_eq_none_iff.mp hl) hne
  | some c =>
    split
    · exact hl
    · rw [List.getLast?_append, List.getLast?_cons, hl]
      rfl

theorem location_key_last (absolute : Bool) (stack : List (List Char)) (f : List Char)
    (hne : f ≠ []) :
    (location_key absolute (stack ++ [f])).data.getLast? = f.getLast? := by
  unfold location_key
  simp only
  rw [List.getLast?_append, join_components_last stack f hne]
  cases hl : f.getLast? with
  | none => exact absurd (List.getLast?_eq_none_iff.mp hl) hne
  | some c => rfl

theorem location_key_length_lt (absolute : Bool) (stack more : List (List Char))
    (f : List Char) (hne : f ≠ []) :
    (location_key absolute stack).data.length
      < (location_key absolute (stack ++ more ++ [f])).data.length := by
  unfold location_key
  simp only [List.length_append]
  have h1 := join_components_length_le stack more
  have h2 := join_components_length_lt (stack ++ more) f hne
  omega

theorem is_start_snoc (stack : List (List Char)) (f : List Char) (h : f ≠ ['.', '.']) :
    is_start (stack ++ [f]) = false := by
  simp [is_start, h]

theorem walk_congr (fs fs2 : FS) (absolute : Bool)
    (same : ∀ k, fs k = some Node.directory ↔ fs2 k = some Node.directory) :
    ∀ (comps stack : List (List Char)),
      walk fs absolute stack comps = walk fs2 absolute stack comps := by
  have hdir : ∀ stack, is_directory_at fs absolute stack
      = is_directory_at fs2 absolute stack := by
    intro stack
    unfold is_directory_at
    congr 1
    exact decide_eq_decide.mpr (same _)
  intro comps
  induction comps with
  | nil => intro stack; rfl
  | cons c rest ih =>
    intro stack
    simp only [walk, hdir, ih]

theorem walk_plain (fs : FS) (absolute : Bool) :
    ∀ (comps stack : List (List Char)),
      (∀ c ∈ comps, c ≠ ['.'] ∧ c ≠ ['.', '.']) →
      walk fs absolute stack comps = some (stack ++ comps) := by
  intro comps
  induction comps with
  | nil => intro stack _; simp [walk]
  | cons c rest ih =>
    intro stack h
    have hc := h c (List.mem_cons_self _ _)
    simp only [walk, hc.1, hc.2, if_false]
    rw [ih (stack ++ [c]) (fun x hx => h x (List.mem_cons_of_mem _ hx))]
    simp

theorem walk_append (fs : FS) (absolute : Bool) :
    ∀ (a b stack : List (List Char)),
      walk fs absolute stack (a ++ b)
        = (walk fs absolute stack a).bind (fun s => walk fs absolute s b) := by
  intro a
  induction a with
  | nil => intro b stack; simp [walk]
  | cons c rest ih =>
    intro b stack
    simp only [List.cons_append, walk]
    split
    · split
      · exact ih b stack
      · rfl
    · split
      · split
        · exact ih b _
        · rfl
      · exact ih b _

theorem make_directories_plain (absolute : Bool) :
    ∀ (comps stack : List (List Char)) (fs fs1 : FS) (ok : Bool),
      (∀ c ∈ comps, c ≠ ['.'] ∧ c ≠ ['.', '.']) →
      make_directories absolute fs stack comps = (fs1, ok) →
      ∀ k, fs1 k = fs k
        ∨ ∃ a b, comps = a ++ b ∧ k = location_key absolute (stack ++ a) := by
  intro comps
  induction comps with
  | nil =>
    intro stack fs fs1 ok _ h k
    simp only [make_directories, Prod.mk.injEq] at h
    rw [← h.1]
    exact Or.inl rfl
  | cons c rest ih =>
    intro stack fs fs1 ok hplain h k
    have hc := hplain c (List.mem_cons_self _ _)
    have hrest : ∀ x ∈ rest, x ≠ ['.'] ∧ x ≠ ['.', '.'] :=
      fun x hx => hplain x (List.mem_cons_of_mem _ hx)
    simp only [make_directories, hc.1, hc.2, if_false] at h
    have lift : ∀ fsm : FS,
        (fs1 k = fsm k ∨ ∃ a b, rest = a ++ b
          ∧ k = location_key absolute (stack ++ [c] ++ a)) →
        (fsm k = fs k ∨ k = location_key absolute (stack ++ [c])) →
        fs1 k = fs k
          ∨ ∃ a b, c :: rest = a ++ b ∧ k = location_key absolute (stack ++ a) := by
      intro fsm h1 h2
      rcases h1 with h1 | ⟨a, b, hab, hk⟩
      · rcases h2 with h2 | h2
        · exact Or.inl (h1.trans h2)
        · exact Or.inr ⟨[c], rest, rfl, h2⟩
      · exact Or.inr ⟨c :: a, b, by rw [hab]; rfl, by rw [hk]; simp⟩
    split at h
    · exact lift fs (ih _ fs fs1 ok hrest h k) (Or.inl rfl)
    · simp only [Prod.mk.injEq] at h
      rw [← h.1]
      exact Or.inl rfl
    · refine lift (fun q =>
          if q = location_key absolute (stack ++ [c]) then some Node.directory else fs q)
        (ih _ _ fs1 ok hrest h k) ?_
      by_cases hk : k = location_key absolute (stack ++ [c])
      · exact Or.inr hk
      · exact Or.inl (by simp [hk])

theorem is_plain_iff (p : String) :
    fs_path.is_plain p = true ↔
      fs_path.has_filename p = true
        ∧ ∀ c ∈ fs_path.components p, c ≠ ['.'] ∧ c ≠ ['.', '.'] := by
  simp [fs_path.is_plain, fs_path.has_no_dots]

theorem has_filename_ne_empty (p : String) (h : fs_path.has_filename p = true) :
    p ≠ "" := by
  intro hp
  rw [hp] at h
  exact absurd h (by decide)

theorem fs_lookup_plain (fs : FS) (p : String) (h : fs_path.is_plain p = true) :
    fs_lookup fs p = fs (location_key (fs_path.is_absolute p) (fs_path.components p)) := by
  obtain ⟨hfile, hplain⟩ := (is_plain_iff p).mp h
  have hcomps := components_filename p hfile
  have hstart : is_start (fs_path.components p) = false := by
    rw [hcomps]
    apply is_start_snoc
    rw [← List.singleton_append] at hcomps
    exact (hplain _ (by rw [hcomps]; simp)).2
  unfold fs_lookup
  rw [if_neg (has_filename_ne_empty p hfile), walk_plain fs _ _ [] hplain]
  simp only [List.nil_append, hstart, Bool.false_eq_true, if_false, hfile, if_true]
  cases fs (location_key (fs_path.is_absolute p) (fs_path.components p)) with
  | none => rfl
  | some n => cases n <;> rfl

theorem open_target_some (fs : FS) (p k : String) (h : open_target fs p = some k) :
    ∃ stack name, fs_path.has_filename p = true
      ∧ fs_path.components p = (fs_path.components p).dropLast ++ [name]
      ∧ name = (fs_path.filename p).data
      ∧ (name ≠ ['.'] ∧ name ≠ ['.', '.'])
      ∧ walk fs (fs_path.is_absolute p) [] (fs_path.components p).dropLast = some stack
      ∧ k = location_key (fs_path.is_absolute p) (stack ++ [name])
      ∧ fs k ≠ some Node.directory := by
  unfold open_target at h
  split at h
  · simp at h
  · rename_i hfile
    have hfile2 : fs_path.has_filename p = true := by simpa using hfile
    split at h
    · simp at h
    · rename_i name hlast
      split at h
      · simp at h
      · rename_i hname
        split at h
        · simp at h
        · rename_i stack hwalk
          split at h
          · split at h
            · simp at h
            · rename_i hdir
              simp only [Option.some.injEq] at h
              have hdrop := List.dropLast_append_getLast? name hlast
              refine ⟨stack, name, hfile2, hdrop.symm, ?_, ?_, hwalk, h.symm, ?_⟩
              · have hc := components_filename p hfile2
                rw [hc] at hlast
                simpa using hlast.symm
              · exact ⟨fun hn => hname (Or.inl hn), fun hn => hname (Or.inr hn)⟩
              · rw [← h]
                exact hdir
          · simp at h

theorem open_target_last (fs : FS) (p k : String) (h : open_target fs p = some k) :
    k.data.getLast? = p.data.getLast? := by
  obtain ⟨stack, name, hfile, _, hname, _, _, hk, _⟩ := open_target_some fs p k h
  obtain ⟨_, hne, _, hlast, _⟩ := filename_parts p hfile
  rw [hk, location_key_last _ _ _ (by rw [hname]; exact hne), hname, hlast]

theorem components_key_last (p : String) (absolute : Bool)
    (h : fs_path.has_filename p = true) :
    (location_key absolute (fs_path.components p)).data.getLast? = p.data.getLast? := by
  obtain ⟨_, hne, _, hlast, _⟩ := filename_parts p h
  rw [components_filename p h, location_key_last _ _ _ hne, hlast]

theorem lookup_of_open (fs fs2 : FS) (p k content : String)
    (h : open_target fs p = some k)
    (same : ∀ q, fs q = some Node.directory ↔ fs2 q = some Node.directory)
    (stored : fs2 k = some (Node.file content)) :
    fs_lookup fs2 p = some (Node.file content) := by
  obtain ⟨stack, name, hfile, hcomps, _, hname, hwalk, hk, _⟩ := open_target_some fs p k h
  unfold fs_lookup
  rw [if_neg (has_filename_ne_empty p hfile), hcomps, walk_append,
    ← walk_congr fs fs2 _ same, hwalk]
  have hstep : walk fs2 (fs_path.is_absolute p) stack [name] = some (stack ++ [name]) :=
    walk_plain fs2 _ [name] stack (by simpa using hname)
  simp only [Option.some_bind, hstep, is_start_snoc stack name hname.2, Bool.false_eq_true,
    if_false, ← hk, stored, hfile, if_true]

theorem create_directories_plain_target (fs fs1 : FS) (p : String)
    (h : fs_path.is_plain p = true)
    (dirs : create_directories fs (fs_path.parent_path p) = some fs1) :
    fs1 (location_key (fs_path.is_absolute p) (fs_path.components p))
      = fs (location_key (fs_path.is_absolute p) (fs_path.components p)) := by
  obtain ⟨hfile, hplain⟩ := (is_plain_iff p).mp h
  obtain ⟨_, hne, _, _, _⟩ := filename_parts p hfile
  have hcomps := components_filename p hfile
  have hparent := components_parent_path p hfile
  unfold create_directories at dirs
  split at dirs
  · simp at dirs
  · rename_i hnonempty
    rw [parent_path_is_absolute p hnonempty, hparent] at dirs
    split at dirs
    swap
    · simp at dirs
    rename_i fsm hmake
    simp only [Option.some.injEq] at dirs
    subst dirs
    have hsub : ∀ c ∈ fs_path.names (fs_path.strip_filename p.data),
        c ≠ ['.'] ∧ c ≠ ['.', '.'] := by
      intro c hc
      exact hplain c (by rw [hcomps]; exact List.mem_append_left _ hc)
    rcases make_directories_plain _ _ [] fs fsm true hsub hmake
      (location_key (fs_path.is_absolute p) (fs_path.components p)) with hsame | ⟨a, b, hab, hk⟩
    · exact hsame
    · exfalso
      have hlt := location_key_length_lt (fs_path.is_absolute p) a b
        (fs_path.filename p).data hne
      rw [← hab, ← hcomps] at hlt
      rw [List.nil_append] at hk
      rw [← hk] at hlt
      exact Nat.lt_irrefl _ hlt

theorem rename_target (fs fs3 : FS) (old_p new_p : String)
    (h : rename fs old_p new_p = some fs3) : fs_exists fs3 new_p = true := by
  unfold rename at h
  split at h
  · rename_i old_key new_key hold hnew
    obtain ⟨_, _, _, _, _, _, _, _, hnodir⟩ := open_target_some fs new_p new_key hnew
    split at h
    · rename_i content hfile
      split at h
      · rename_i heq
        simp only [Option.some.injEq] at h
        subst h
        unfold fs_exists
        rw [lookup_of_open fs fs new_p new_key content hnew (fun _ => Iff.rfl)
          (by rw [← heq]; exact hfile)]
        rfl
      · rename_i hne
        simp only [Option.some.injEq] at h
        subst h
        unfold fs_exists
        rw [lookup_of_open fs _ new_p new_key content hnew ?_ (by simp)]
        · rfl
        · intro q
          by_cases hq : q = new_key
          · subst hq
            simp [hnodir]
          · by_cases hq2 : q = old_key
            · subst hq2
              simp [hq, hfile]
            · simp [hq, hq2]
    · simp at h
  · simp at h

theorem plain_target_after_directories (fs fs1 : FS) (p : String)
    (h : fs_path.is_plain p = true)
    (gone : fs (location_key (fs_path.is_absolute p) (fs_path.components p)) = none)
    (dirs : create_directories fs (fs_path.parent_path p) = some fs1) :
    fs_exists fs1 p = false := by
  unfold fs_exists
  rw [fs_lookup_plain fs1 p h, create_directories_plain_target fs fs1 p h dirs, gone]
  rfl

theorem write_file_other (fs : FS) (p body q : String)
    (h : ∀ k, open_target fs p = some k → q ≠ k) :
    write_file fs p body q = fs q := by
  unfold write_file
  cases hk : open_target fs p with
  | none => rfl
  | some k => simp [h k hk]

theorem write_file_lookup (fs : FS) (p body : String) (h : can_open fs p = true) :
    fs_lookup (write_file fs p body) p = some (Node.file body) := by
  unfold can_open at h
  obtain ⟨k, hk⟩ := Option.isSome_iff_exists.mp h
  obtain ⟨_, _, _, _, _, _, _, _, hnodir⟩ := open_target_some fs p k hk
  apply lookup_of_open fs _ p k body hk
  · intro q
    unfold write_file
    rw [hk]
    by_cases hq : q = k
    · subst hq
      simp [hnodir]
    · simp [hq]
  · unfold write_file
    rw [hk]
    simp

theorem replace_extension_tmp_last (p : String) :
    (fs_path.replace_extension p ".tmp").data.getLast? = some 'p' := by
  simp [fs_path.replace_extension]

theorem append_last (p q : String) (c : Char) (h : q.data.getLast? = some c) :
    (fs_path.append p q).data.getLast? = some c := by
  obtain ⟨front, hfront⟩ := append_data_suffix p q
  rw [hfront, List.getLast?_append, h]
  rfl

theorem relative_path_last (name guid : String) (age : Nat) (c : Char)
    (h : name.data.getLast? = some c) :
    (get_relative_path_str name guid age).data.getLast? = some c := by
  simp only [get_relative_path_str, to_lower, String.data_append, List.getLast?_append, h]
  rfl

theorem tmp_path_differs (root name guid : String) (age : Nat)
    (h : name = "ntoskrnl.pdb" ∨ name = "ntkrnlmp.pdb") :
    fs_path.append root (get_relative_path_str name guid age)
      ≠ fs_path.replace_extension
          (fs_path.append root (get_relative_path_str name guid age)) ".tmp" := by
  intro heq
  have hlast : name.data.getLast? = some 'b' := by
    rcases h with rfl | rfl <;> rfl
  have h1 := append_last root _ 'b' (relative_path_last name guid age 'b' hlast)
  have h2 := replace_extension_tmp_last
    (fs_path.append root (get_relative_path_str name guid age))
  rw [← heq, h1] at h2
  exact absurd h2 (by decide)

theorem kernel_target_after_write (fs1 : FS) (root name guid body : String) (age : Nat)
    (kernel : name = "ntoskrnl.pdb" ∨ name = "ntkrnlmp.pdb")
    (plain : fs_path.is_plain
      (fs_path.append root (get_relative_path_str name guid age)) = true)
    (gone : fs_exists fs1 (fs_path.append root (get_relative_path_str name guid age))
      = false) :
    fs_exists
        (write_file fs1 (fs_path.replace_extension
          (fs_path.append root (get_relative_path_str name guid age)) ".tmp") body)
        (fs_path.append root (get_relative_path_str name guid age)) = false := by
  have hfile := ((is_plain_iff _).mp plain).1
  have hlast : name.data.getLast? = some 'b' := by
    rcases kernel with rfl | rfl <;> rfl
  have htarget := append_last root _ 'b' (relative_path_last name guid age 'b' hlast)
  unfold fs_exists at gone ⊢
  rw [fs_lookup_plain _ _ plain] at gone ⊢
  rw [write_file_other]
  · exact gone
  · intro k hk heq
    have h1 := open_target_last fs1 _ k hk
    rw [replace_extension_tmp_last] at h1
    have h2 := components_key_last _
      (fs_path.is_absolute (fs_path.append root (get_relative_path_str name guid age)))
      hfile
    rw [heq, h1, htarget] at h2
    exact absurd h2 (by decide)

theorem kernel_target_plain (root name guid : String) (age : Nat)
    (kernel : name = "ntoskrnl.pdb" ∨ name = "ntkrnlmp.pdb")
    (h : fs_path.has_no_dots
      (fs_path.append root (get_relative_path_str name guid age)) = true) :
    fs_path.is_plain (fs_path.append root (get_relative_path_str name guid age))
      = true := by
  have hlast : name.data.getLast? = some 'b' := by
    rcases kernel with rfl | rfl <;> rfl
  have htarget := append_last root _ 'b' (relative_path_last name guid age 'b' hlast)
  unfold fs_path.is_plain fs_path.has_filename
  rw [htarget, h]
  rfl

/-! ## Facts about the server address -/

theorem match_host_rest_some (scheme s : List Char) (m : String × String)
    (h : match_host_rest scheme s = some m) :
    m.1.data ≠ [] ∧ m.2.data.head? = some '/' ∧ m.1.data ++ m.2.data = scheme ++ s := by
  unfold match_host_rest at h
  simp only at h
  split at h
  · rename_i c host d after hhost hrest
    split at h
    · simp at h
      subst h
      refine ⟨by simp [hhost], ?_, ?_⟩
      · have hd := List.head_dropWhile_not (fun c => !fs_path.is_sep c) s
          (by rw [hrest]; simp)
        simp only [hrest, List.head_cons] at hd
        simp [fs_path.is_sep] at hd
        rw [hrest, hd]
        rfl
      · simp only [List.append_assoc]
        rw [List.takeWhile_append_dropWhile]
    · simp at h
  · simp at h

theorem scheme_then_rest (scheme c : List Char) (h : scheme.isPrefixOf c = true) :
    scheme ++ c.drop scheme.length = c :=
  List.prefix_iff_eq_append.mp (List.isPrefixOf_iff_prefix.mp h)

theorem regex_match_server_some (s : String) (m : String × String)
    (h : regex_match_server s = some m) :
    m.1 ≠ "" ∧ m.2.data.head? = some '/' ∧ m.1 ++ m.2 = s := by
  have key : m.1.data ≠ [] ∧ m.2.data.head? = some '/' ∧ m.1.data ++ m.2.data = s.data := by
    unfold regex_match_server at h
    simp only at h
    split at h
    · rename_i m1 h1
      simp at h
      subst h
      split at h1
      · rename_i hp
        have := match_host_rest_some _ _ _ h1
        rw [show (7 : Nat) = "http://".data.length from rfl, scheme_then_rest _ _ hp] at this
        exact this
      · simp at h1
    · split at h
      · rename_i m2 h2
        simp at h
        subst h
        split at h2
        · rename_i hp
          have := match_host_rest_some _ _ _ h2
          rw [show (8 : Nat) = "https://".data.length from rfl, scheme_then_rest _ _ hp]
            at this
          exact this
        · simp at h2
      · have := match_host_rest_some _ _ _ h
        simpa using this
  refine ⟨?_, key.2.1, String.ext (by simpa using key.2.2)⟩
  intro hempty
  rw [hempty] at key
  exact key.1 rfl

theorem match_host_rest_of_parts (scheme host rest : List Char)
    (nonempty : host ≠ []) (plain : ∀ c ∈ host, fs_path.is_sep c = false)
    (one_line : ∀ c ∈ rest, is_line_terminator c = false) :
    match_host_rest scheme (host ++ '/' :: rest)
      = some (⟨scheme ++ host⟩, ⟨'/' :: rest⟩) := by
  have htake : (host ++ '/' :: rest).takeWhile (fun c => !fs_path.is_sep c) = host := by
    rw [List.takeWhile_append_of_pos (by simpa using plain)]
    simp [fs_path.is_sep]
  have hdrop : (host ++ '/' :: rest).dropWhile (fun c => !fs_path.is_sep c)
      = '/' :: rest := by
    rw [List.dropWhile_append_of_pos (by simpa using plain)]
    simp [fs_path.is_sep]
  unfold match_host_rest
  simp only [htake, hdrop]
  cases host with
  | nil => exact absurd rfl nonempty
  | cons c t =>
    have hall : (rest.all fun c => !is_line_terminator c) = true := by
      rw [List.all_eq_true]
      intro x hx
      simp [one_line x hx]
    simp only [hall, if_true]

theorem regex_match_server_of_parts (S H P : String)
    (scheme : S = "http://" ∨ S = "https://")
    (host : H.data ≠ []) (plain : ∀ c ∈ H.data, fs_path.is_sep c = false)
    (tail : List Char) (path : P.data = '/' :: tail)
    (one_line : ∀ c ∈ tail, is_line_terminator c = false) :
    regex_match_server (S ++ H ++ P) = some (S ++ H, P) := by
  have hm7 := match_host_rest_of_parts "http://".data H.data tail host plain one_line
  have hm8 := match_host_rest_of_parts "https://".data H.data tail host plain one_line
  have hP : P = ⟨'/' :: tail⟩ := String.ext path
  unfold regex_match_server
  rcases scheme with rfl | rfl
  · have hdrop : ("http://" ++ H ++ P).data.drop 7 = H.data ++ '/' :: tail := by
      simp only [String.data_append, path, List.append_assoc]
      rfl
    have hpre : "http://".data.isPrefixOf ("http://" ++ H ++ P).data = true := by
      simp only [String.data_append, List.append_assoc]
      exact List.isPrefixOf_iff_prefix.mpr ⟨_, rfl⟩
    simp only [hdrop, hpre, if_true, hm7]
    rw [hP]
    rfl
  · have hdrop : ("https://" ++ H ++ P).data.drop 8 = H.data ++ '/' :: tail := by
      simp only [String.data_append, path, List.append_assoc]
      rfl
    have hpre : "https://".data.isPrefixOf ("https://" ++ H ++ P).data = true := by
      simp only [String.data_append, List.append_assoc]
      exact List.isPrefixOf_iff_prefix.mpr ⟨_, rfl⟩
    have hnot : "http://".data.isPrefixOf ("https://" ++ H ++ P).data = false := by
      simp only [String.data_append, List.append_assoc]
      rfl
    simp only [hdrop, hpre, hnot, if_true, hm8, Bool.false_eq_true, if_false]
    rw [hP]
    rfl

theorem split_server_name_empty (s : String) (h : (split_server_name s).1 = "") :
    split_server_name s = ("", "") := by
  unfold split_server_name at h ⊢
  split
  · rfl
  · rename_i m hm
    rw [hm] at h
    exact absurd h (regex_match_server_some s m hm).1

theorem split_server_name_valid (s : String) (h : (split_server_name s).1 ≠ "") :
    (split_server_name s).2.data.head? = some '/'
      ∧ (split_server_name s).1 ++ (split_server_name s).2 = s := by
  unfold split_server_name at h ⊢
  split
  · rename_i hm
    rw [hm] at h
    exact absurd rfl h
  · rename_i m hm
    exact (regex_match_server_some s m hm).2

theorem normalize_server_eq (url : String) :
    normalize_server url = if url.data.getLast? = some '/' then url else url ++ "/" := by
  unfold normalize_server
  by_cases h : url.data.getLast? = some '/'
  · simp [h]
  · simp only [h, ne_eq, not_false_eq_true, if_true, if_false]
    exact String.ext (by simp)

theorem normalize_scheme_host_path (S H P : String)
    (host : H.data ≠ []) (plain : ∀ c ∈ H.data, c ≠ '/') :
    normalize_server (S ++ H ++ P)
      = S ++ H ++ (if P.data.getLast? = some '/' then P else P ++ "/") := by
  rw [normalize_server_eq]
  have hlast : (S ++ H ++ P).data.getLast? = some '/' ↔ P.data.getLast? = some '/' := by
    simp only [String.data_append, List.getLast?_append]
    cases hP : P.data.getLast? with
    | some c => simp
    | none =>
      obtain ⟨c, hc⟩ : ∃ c, H.data.getLast? = some c := by
        cases hH : H.data.getLast? with
        | none => exact absurd (List.getLast?_eq_none_iff.mp hH) host
        | some c => exact ⟨c, rfl⟩
      have hne : c ≠ '/' := plain c (List.mem_of_getLast?_eq_some hc)
      simp [hc, hne]
  by_cases h : P.data.getLast? = some '/'
  · rw [if_pos (hlast.mpr h), if_pos h]
  · rw [if_neg (fun h2 => h (hlast.mp h2)), if_neg h]
    exact String.ext (by simp)

theorem normalized_path_parts (P : String)
    (path : P = "" ∨ P.data.head? = some '/')
    (one_line : ∀ c ∈ P.data, c ≠ '\n' ∧ c ≠ '\r') :
    ∃ tail, (if P.data.getLast? = some '/' then P else P ++ "/").data = '/' :: tail
      ∧ ∀ c ∈ tail, is_line_terminator c = false := by
  have hclean : ∀ c ∈ P.data ++ ['/'], is_line_terminator c = false := by
    intro c hc
    rcases List.mem_append.mp hc with h | h
    · have := one_line c h
      simp [is_line_terminator, this.1, this.2]
    · simp only [List.mem_singleton] at h
      subst h
      decide
  cases hP : P.data with
  | nil =>
    refine ⟨[], ?_, by simp⟩
    simp [hP]
  | cons c t =>
    have hc : c = '/' := by
      rcases path with h | h
      · rw [h] at hP
        exact absurd hP (by simp)
      · rw [hP] at h
        simpa using h
    subst hc
    by_cases h : P.data.getLast? = some '/'
    · refine ⟨t, by rw [hP] at h; rw [if_pos h, hP], ?_⟩
      intro x hx
      exact hclean x (by rw [hP]; simp [hx])
    · refine ⟨t ++ ['/'], by rw [hP] at h; rw [if_neg h]; simp [hP], ?_⟩
      intro x hx
      apply hclean x
      rw [hP]
      rcases List.mem_append.mp hx with h1 | h1
      · simp [h1]
      · simp only [List.mem_singleton] at h1
        simp [h1]

theorem match_host_rest_isSome (scheme t : List Char) :
    (match_host_rest scheme t).isSome = true ↔ host_rest_ok t := by
  unfold host_rest_ok after_first_sep
  cases t with
  | nil => simp [match_host_rest, starts_with_host]
  | cons c t =>
    by_cases hc : fs_path.is_sep c = true
    · simp [match_host_rest, starts_with_host, hc]
    · have hc2 : fs_path.is_sep c = false := by simpa using hc
      cases hd : t.dropWhile (fun c => !fs_path.is_sep c) with
      | nil => simp [match_host_rest, starts_with_host, hc2, hd]
      | cons d after =>
        by_cases hall : (after.all fun c => !is_line_terminator c) = true
        · have hall2 := hall
          rw [List.all_eq_true] at hall2
          simp only [match_host_rest, starts_with_host, hc2, hd, Bool.not_false,
            List.takeWhile_cons_of_pos, List.dropWhile_cons_of_pos, hall, if_true,
            Option.isSome_some, ne_eq, reduceCtorEq, not_false_eq_true, List.drop_succ_cons,
            List.drop_zero, true_and, true_iff]
          intro x hx
          simpa using hall2 x hx
        · simp only [match_host_rest, starts_with_host, hc2, hd, Bool.not_false,
            List.takeWhile_cons_of_pos, List.dropWhile_cons_of_pos, hall, if_false,
            Option.isSome_none, Bool.false_eq_true, ne_eq, reduceCtorEq, not_false_eq_true,
            List.drop_succ_cons, List.drop_zero, true_and, false_iff]
          intro hclean
          apply hall
          rw [List.all_eq_true]
          intro x hx
          simp [hclean x hx]

theorem regex_match_isSome (s : String) :
    (regex_match_server s).isSome = true ↔
      ("http://".data.isPrefixOf s.data = true ∧ host_rest_ok (s.data.drop 7))
        ∨ ("https://".data.isPrefixOf s.data = true ∧ host_rest_ok (s.data.drop 8))
        ∨ host_rest_ok s.data := by
  have e7 := match_host_rest_isSome "http://".data (s.data.drop 7)
  have e8 := match_host_rest_isSome "https://".data (s.data.drop 8)
  have e0 := match_host_rest_isSome [] s.data
  unfold regex_match_server
  simp only
  cases p7 : "http://".data.isPrefixOf s.data <;>
    cases p8 : "https://".data.isPrefixOf s.data <;>
    cases m7 : match_host_rest "http://".data (s.data.drop 7) <;>
    cases m8 : match_host_rest "https://".data (s.data.drop 8) <;>
    cases m0 : match_host_rest [] s.data <;>
    simp_all

theorem split_first_nonempty_iff (s : String) :
    (split_server_name s).1 ≠ "" ↔ (regex_match_server s).isSome = true := by
  unfold split_server_name
  cases h : regex_match_server s with
  | none => simp
  | some m => simpa using (regex_match_server_some s m h).1

theorem normalize_server_last (url : String) :
    (normalize_server url).data.getLast? = some '/' := by
  rw [normalize_server_eq]
  by_cases h : url.data.getLast? = some '/'
  · rw [if_pos h]
    exact h
  · rw [if_neg h]
    simp

theorem normalize_server_head (url : String) (h : url ≠ "") :
    (normalize_server url).data.head? = url.data.head? := by
  rw [normalize_server_eq]
  by_cases hl : url.data.getLast? = some '/'
  · rw [if_pos hl]
  · rw [if_neg hl]
    cases hd : url.data with
    | nil => exact absurd (String.ext hd) h
    | cons c t => simp [hd]

theorem dropWhile_of_last_sep (l : List Char) (n : Nat)
    (hlast : l.getLast? = some '/') (hne : l.drop n ≠ []) :
    (l.drop n).dropWhile (fun c => !fs_path.is_sep c) ≠ [] := by
  intro hnil
  rw [List.dropWhile_eq_nil_iff] at hnil
  have hlen : ¬ l.length ≤ n := fun hle => hne (List.drop_eq_nil_of_le hle)
  have hl : (l.drop n).getLast? = some '/' := by
    rw [List.getLast?_drop, if_neg hlen, hlast]
  have := hnil '/' (List.mem_of_getLast?_eq_some hl)
  simp [fs_path.is_sep] at this

theorem starts_with_host_ne_nil (t : List Char) (h : starts_with_host t = true) :
    t ≠ [] := by
  intro hnil
  rw [hnil] at h
  simp [starts_with_host] at h

theorem after_first_sep_subset (t : List Char) : ∀ c ∈ after_first_sep t, c ∈ t := by
  intro c hc
  exact (List.dropWhile_sublist _).subset (List.mem_of_mem_drop hc)

theorem after_http_subset (l : List Char) (hp : "http://".data.isPrefixOf l = true) :
    ∀ c ∈ after_first_sep (l.drop 7), c ∈ after_first_sep l := by
  intro c hc
  have hmem := after_first_sep_subset _ c hc
  have hl := scheme_then_rest "http://".data l hp
  have h7 : "http://".data.length = 7 := rfl
  rw [h7] at hl
  rw [← hl]
  have hdrop : after_first_sep ("http://".data ++ l.drop 7) = '/' :: l.drop 7 := by
    simp [after_first_sep, fs_path.is_sep]
  rw [hdrop]
  exact List.mem_cons_of_mem _ hmem

theorem after_https_subset (l : List Char) (hp : "https://".data.isPrefixOf l = true) :
    ∀ c ∈ after_first_sep (l.drop 8), c ∈ after_first_sep l := by
  intro c hc
  have hmem := after_first_sep_subset _ c hc
  have hl := scheme_then_rest "https://".data l hp
  have h8 : "https://".data.length = 8 := rfl
  rw [h8] at hl
  rw [← hl]
  have hdrop : after_first_sep ("https://".data ++ l.drop 8) = '/' :: l.drop 8 := by
    simp [after_first_sep, fs_path.is_sep]
  rw [hdrop]
  exact List.mem_cons_of_mem _ hmem

theorem schemes_exclusive (l : List Char) (h7 : "http://".data.isPrefixOf l = true)
    (h8 : "https://".data.isPrefixOf l = true) : False := by
  have e7 := scheme_then_rest "http://".data l h7
  have e8 := scheme_then_rest "https://".data l h8
  rw [← e8] at e7
  simp at e7

theorem scheme_starts_with_host (l : List Char)
    (h : "http://".data.isPrefixOf l = true ∨ "https://".data.isPrefixOf l = true) :
    starts_with_host l = true := by
  rcases h with h | h
  · rw [← scheme_then_rest _ l h]
    rfl
  · rw [← scheme_then_rest _ l h]
    rfl

theorem regex_match_isSome_iff (s : String) (hlast : s.data.getLast? = some '/') :
    (regex_match_server s).isSome = true ↔
      starts_with_host s.data = true
        ∧ ∀ c ∈ url_path_tail s, is_line_terminator c = false := by
  rw [regex_match_isSome]
  unfold url_path_tail
  by_cases q7 : "http://".data.isPrefixOf s.data = true
      ∧ starts_with_host (s.data.drop 7) = true
  · rw [if_pos q7]
    constructor
    · rintro (⟨_, h⟩ | ⟨p8, _⟩ | h0)
      · exact ⟨scheme_starts_with_host _ (Or.inl q7.1), h.2.2⟩
      · exact (schemes_exclusive _ q7.1 p8).elim
      · exact ⟨h0.1, fun c hc => h0.2.2 c (after_http_subset _ q7.1 c hc)⟩
    · rintro ⟨_, hclean⟩
      exact Or.inl ⟨q7.1, q7.2,
        dropWhile_of_last_sep _ 7 hlast (starts_with_host_ne_nil _ q7.2), hclean⟩
  · rw [if_neg q7]
    by_cases q8 : "https://".data.isPrefixOf s.data = true
        ∧ starts_with_host (s.data.drop 8) = true
    · rw [if_pos q8]
      constructor
      · rintro (⟨p7, h⟩ | ⟨_, h⟩ | h0)
        · exact absurd ⟨p7, h.1⟩ q7
        · exact ⟨scheme_starts_with_host _ (Or.inr q8.1), h.2.2⟩
        · exact ⟨h0.1, fun c hc => h0.2.2 c (after_https_subset _ q8.1 c hc)⟩
      · rintro ⟨_, hclean⟩
        exact Or.inr (Or.inl ⟨q8.1, q8.2,
          dropWhile_of_last_sep _ 8 hlast (starts_with_host_ne_nil _ q8.2), hclean⟩)
    · rw [if_neg q8]
      constructor
      · rintro (⟨p7, h⟩ | ⟨p8, h⟩ | h0)
        · exact absurd ⟨p7, h.1⟩ q7
        · exact absurd ⟨p8, h.1⟩ q8
        · exact ⟨h0.1, h0.2.2⟩
      · rintro ⟨hh, hclean⟩
        have hd := dropWhile_of_last_sep s.data 0 hlast
          (by simpa using starts_with_host_ne_nil _ hh)
        rw [List.drop_zero] at hd
        exact Or.inr (Or.inr ⟨hh, hd, hclean⟩)

theorem starts_with_host_iff (t : List Char) :
    starts_with_host t = true ↔ t ≠ [] ∧ t.head? ≠ some '/' := by
  cases t with
  | nil => simp [starts_with_host]
  | cons c t => simp [starts_with_host, fs_path.is_sep]

theorem url_path_tail_subset (s : String) : ∀ c ∈ url_path_tail s, c ∈ s.data := by
  intro c hc
  unfold url_path_tail at hc
  split at hc
  · exact List.mem_of_mem_drop (after_first_sep_subset _ c hc)
  · split at hc
    · exact List.mem_of_mem_drop (after_first_sep_subset _ c hc)
    · exact after_first_sep_subset _ c hc

theorem normalize_server_mem (url : String) :
    ∀ c ∈ (normalize_server url).data, c ∈ url.data ∨ c = '/' := by
  intro c hc
  rw [normalize_server_eq] at hc
  split at hc
  · exact Or.inl hc
  · simpa using hc

theorem construct_valid_iff (root url : String) :
    (downloader.construct root url).valid = true ↔
      root ≠ "" ∧ url ≠ ""
        ∧ (regex_match_server (normalize_server url)).isSome = true := by
  rw [← split_first_nonempty_iff]
  unfold downloader.valid downloader.construct
  by_cases h1 : url = "" ∨ root = ""
  · rw [if_pos h1]
    simp only [Bool.false_eq_true, false_iff]
    rintro ⟨hr, hu, _⟩
    exact h1.elim hu hr
  · rw [if_neg h1]
    simp only
    have hu : url ≠ "" := fun h => h1 (Or.inl h)
    have hr : root ≠ "" := fun h => h1 (Or.inr h)
    by_cases h2 : (split_server_name (normalize_server url)).1 = ""
    · rw [if_pos h2]
      simp [h2]
    · rw [if_neg h2]
      simp [h2, hu, hr]

theorem construct_invalid_split (root url : String)
    (h : (downloader.construct root url).valid = false) :
    (downloader.construct root url).server_split_ = ("", "") := by
  unfold downloader.valid downloader.construct at *
  split
  · rfl
  · simp only
    split
    · rename_i hempty
      exact split_server_name_empty _ hempty
    · rename_i h1 h2
      simp [h1, h2] at h

theorem download_requests (d : downloader) (server : Server) (parser : Parser) (fs : FS)
    (name guid : String) (age : Nat) :
    (fs_exists fs (d.get_path name guid age) = true
        ∧ (d.download server parser fs name guid age).requests = [])
      ∨ (fs_exists fs (d.get_path name guid age) = false
        ∧ (d.download server parser fs name guid age).requests
          = [(d.server_split_.1, d.server_split_.2 ++ get_relative_path_str name guid age)])
    := by
  unfold downloader.get_path
  simp only
  cases hex : fs_exists fs (fs_path.append d.path_ (get_relative_path_str name guid age))
  · right
    refine ⟨rfl, ?_⟩
    unfold downloader.download
    simp only [hex, Bool.false_eq_true, if_false]
    repeat' split
    all_goals rfl
  · left
    refine ⟨rfl, ?_⟩
    simp [downloader.download, hex]

theorem download_hit (d : downloader) (server : Server) (parser : Parser) (fs : FS)
    (name guid : String) (age : Nat)
    (hit : fs_exists fs (d.get_path name guid age) = true) :
    d.download server parser fs name guid age = ⟨Outcome.returned true, fs, []⟩ := by
  unfold downloader.get_path at hit
  simp only [downloader.download, hit, if_true]

theorem download_transport_failure (d : downloader) (server : Server) (parser : Parser)
    (fs : FS) (name guid : String) (age : Nat)
    (absent : fs_exists fs (d.get_path name guid age) = false)
    (hfail : server d.server_split_.1
          (d.server_split_.2 ++ get_relative_path_str name guid age) = none
      ∨ ∃ res, server d.server_split_.1
          (d.server_split_.2 ++ get_relative_path_str name guid age) = some res
            ∧ res.status ≠ 200) :
    (d.download server parser fs name guid age).outcome = Outcome.returned false
      ∧ (d.download server parser fs name guid age).fs = fs := by
  unfold downloader.get_path at absent
  simp only at absent
  unfold downloader.download
  simp only [absent, Bool.false_eq_true, if_false]
  rcases hfail with hnone | ⟨res, hres, hstatus⟩
  · simp only [hnone, and_self]
  · simp only [hres, hstatus, ne_eq, not_false_eq_true, if_true, and_self]

theorem construct_valid_split (root url : String)
    (valid : (downloader.construct root url).valid = true) :
    (downloader.construct root url).server_split_
        = split_server_name (normalize_server url)
      ∧ (split_server_name (normalize_server url)).1 ≠ "" := by
  unfold downloader.valid downloader.construct at *
  by_cases h1 : url = "" ∨ root = ""
  · rw [if_pos h1] at valid
    exact absurd valid (by simp)
  · rw [if_neg h1] at valid ⊢
    simp only at valid ⊢
    by_cases h2 : (split_server_name (normalize_server url)).1 = ""
    · rw [if_pos h2] at valid
      exact absurd valid (by simp)
    · rw [if_neg h2]
      exact ⟨rfl, h2⟩

theorem download_commit_example :
    ((downloader.construct "root" "http://h").download server_abc (parser_count 1)
        fs_empty "a.pdb" "G" 1).outcome = Outcome.returned true
      ∧ ((downloader.construct "root" "http://h").download server_abc (parser_count 1)
        fs_empty "a.pdb" "G" 1).fs
          ((downloader.construct "root" "http://h").get_path "a.pdb" "G" 1)
        = some (Node.file "abc")
      ∧ ((downloader.construct "root" "http://h").download server_abc (parser_count 1)
        fs_empty "a.pdb" "G" 1).fs
          (fs_path.replace_extension
            ((downloader.construct "root" "http://h").get_path "a.pdb" "G" 1) ".tmp")
        = none := by
  decide

theorem relative_path_collision :
    get_relative_path_str "a.pdb" "A" 18 = get_relative_path_str "a.pdb" "A1" 2 := by
  decide

theorem tmp_path_examples :
    fs_path.replace_extension "root/a.pdb/G1/a.pdb" ".tmp" = "root/a.pdb/G1/a.tmp"
      ∧ fs_path.replace_extension "root/a/G1/a" ".tmp" = "root/a/G1/a.tmp"
      ∧ fs_path.replace_extension "root/a.tmp/G1/a.tmp" ".tmp" = "root/a.tmp/G1/a.tmp"
      ∧ fs_path.parent_path "root/a.pdb/G1/a.tmp" = fs_path.parent_path "root/a.pdb/G1/a.pdb"
      ∧ fs_path.parent_path "root/a/G1/a.tmp" = fs_path.parent_path "root/a/G1/a" := by
  decide

/-! ## Path derivation -/

/-- C1 (the code departs from the claim): on the spec's own scenario the source returns
the name and the guid as they were given, `Foo.pdb/abcd...2/Foo.pdb`, because `to_lower`
and `to_upper` return their argument and not the transformed copy; the spec's derivation
gives `foo.pdb/ABCD...2/foo.pdb`. -/
theorem get_relative_path_str_keeps_case :
    get_relative_path_str "Foo.pdb" "abcd1234abcd1234abcd1234abcd1234" 2
        = "Foo.pdb/abcd1234abcd1234abcd1234abcd12342/Foo.pdb"
      ∧ spec_relative_path "Foo.pdb" "abcd1234abcd1234abcd1234abcd1234" 2
        = "foo.pdb/ABCD1234ABCD1234ABCD1234ABCD12342/foo.pdb"
      ∧ get_relative_path_str "Foo.pdb" "abcd1234abcd1234abcd1234abcd1234" 2
        ≠ spec_relative_path "Foo.pdb" "abcd1234abcd1234abcd1234abcd1234" 2 := by
  decide

/-! ## Content validation -/

/-- C2 (the code departs from the claim): `NTOSKRNL.PDB` and `NtKrnlMp.pdb` with a
type-information count of zero are accepted, whatever the filesystem and the path,
because `to_lower` returns the name unchanged and the comparison is therefore exact;
the lower-case spelling is rejected. -/
theorem is_valid_pdb_upper_case_accepted (fs : FS) (path : String) :
    downloader.is_valid_pdb (parser_count 0) fs "NTOSKRNL.PDB" path = some true
      ∧ downloader.is_valid_pdb (parser_count 0) fs "NtKrnlMp.pdb" path = some true
      ∧ downloader.is_valid_pdb (parser_count 0) fs "ntoskrnl.pdb" path = some false := by
  refine ⟨?_, ?_, ?_⟩ <;> simp [downloader.is_valid_pdb, parser_count, to_lower]

/-! ## The download protocol -/

/-- C3: a cache hit. When something exists at the target path, `download` returns
`true`, issues no HTTP request and hands back the filesystem it was given, for every
downloader, peer, parser and key. -/
theorem download_cache_hit (d : downloader) (server : Server) (parser : Parser) (fs : FS)
    (name guid : String) (age : Nat)
    (hit : fs_exists fs (d.get_path name guid age) = true) :
    (d.download server parser fs name guid age).outcome = Outcome.returned true
      ∧ (d.download server parser fs name guid age).requests = []
      ∧ (d.download server parser fs name guid age).fs = fs := by
  rw [download_hit d server parser fs name guid age hit]
  exact ⟨rfl, rfl, rfl⟩

/-- C3 at a concrete input: the cached bytes `old` stay although the peer would have
sent `abc`. -/
theorem download_cache_hit_witness :
    fs_exists (fs_single "root/a.pdb/G1/a.pdb" "old")
        ((downloader.construct "root" "http://h").get_path "a.pdb" "G" 1) = true
      ∧ ((downloader.construct "root" "http://h").download server_abc (parser_count 1)
          (fs_single "root/a.pdb/G1/a.pdb" "old") "a.pdb" "G" 1).outcome
            = Outcome.returned true
      ∧ ((downloader.construct "root" "http://h").download server_abc (parser_count 1)
          (fs_single "root/a.pdb/G1/a.pdb" "old") "a.pdb" "G" 1).requests = []
      ∧ ((downloader.construct "root" "http://h").download server_abc (parser_count 1)
          (fs_single "root/a.pdb/G1/a.pdb" "old") "a.pdb" "G" 1).fs
            = fs_single "root/a.pdb/G1/a.pdb" "old" :=
  ⟨by decide,
    download_cache_hit (downloader.construct "root" "http://h") server_abc (parser_count 1)
      (fs_single "root/a.pdb/G1/a.pdb" "old") "a.pdb" "G" 1 (by decide)⟩

/-- The size check, for the header values `std::stoul` converts. The target is absent
and the peer answers the request of `download` with status 200; the `Content-Length`
header is missing, or the number `std::stoul` reads from it is zero or is not the length
of the body. Then `download` returns `false` and hands back the filesystem it was given:
nothing was created or written. -/
theorem download_size_mismatch (d : downloader) (server : Server) (parser : Parser)
    (fs : FS) (name guid : String) (age : Nat) (res : Response)
    (absent : fs_exists fs (d.get_path name guid age) = false)
    (answer : server d.server_split_.1
        (d.server_split_.2 ++ get_relative_path_str name guid age) = some res)
    (ok200 : res.status = 200)
    (mismatch : res.content_length = none
      ∨ ∃ value v, res.content_length = some value ∧ stoul value = Converted.value v
          ∧ (v = 0 ∨ v ≠ res.body.length)) :
    (d.download server parser fs name guid age).outcome = Outcome.returned false
      ∧ (d.download server parser fs name guid age).fs = fs := by
  unfold downloader.get_path at absent
  rcases mismatch with hnone | ⟨value, v, hsome, hconv, hv⟩
  · simp [downloader.download, absent, answer, ok200, hnone]
  · simp only [downloader.download, absent, answer, ok200, hsome, hconv]
    simp [hv]

/-- The size check at a concrete input: five bytes announced, three received. -/
theorem download_size_mismatch_witness :
    ((downloader.construct "root" "http://h").download server_short (parser_count 1)
        fs_empty "a.pdb" "G" 1).outcome = Outcome.returned false
      ∧ ((downloader.construct "root" "http://h").download server_short (parser_count 1)
        fs_empty "a.pdb" "G" 1).fs = fs_empty :=
  download_size_mismatch (downloader.construct "root" "http://h") server_short
    (parser_count 1) fs_empty "a.pdb" "G" 1 ⟨200, some "5", "abc"⟩ (by decide) rfl rfl
    (Or.inr ⟨"5", 5, rfl, by decide, Or.inr (by decide)⟩)

/-- C4 (the code departs from the claim): a `Content-Length` that differs from the
length of the body is not always answered with `false`. The target is absent, the peer
answers 200 and the body has three bytes: with the header 18446744073709551616 the call
ends in `std::out_of_range`, raised by `std::stoul` at source line 66, and with the
header -18446744073709551613, which `std::stoul` negates to 3, the call returns `true`
and the body is committed to the target. -/
theorem download_differing_length_not_rejected :
    fs_exists fs_empty
        ((downloader.construct "root" "http://h").get_path "a.pdb" "G" 1) = false
      ∧ ((downloader.construct "root" "http://h").download
          (server_with_length "18446744073709551616") (parser_count 1) fs_empty
          "a.pdb" "G" 1).outcome = Outcome.raised Exn.out_of_range
      ∧ ((downloader.construct "root" "http://h").download
          (server_with_length "-18446744073709551613") (parser_count 1) fs_empty
          "a.pdb" "G" 1).outcome = Outcome.returned true
      ∧ ((downloader.construct "root" "http://h").download
          (server_with_length "-18446744073709551613") (parser_count 1) fs_empty
          "a.pdb" "G" 1).fs
          ((downloader.construct "root" "http://h").get_path "a.pdb" "G" 1)
        = some (Node.file "abc") := by
  decide

/-- C6 (the code departs from the claim): for the name `a.tmp` the temporary path is the
final path itself, since `replace_extension(".tmp")` leaves a name with that extension
as it is. The target is absent, the peer answers 200 with a matching length, the file
opens and validation accepts; `download` returns `true` and the target holds the body,
and the file is still found at the temporary path. -/
theorem download_tmp_name_keeps_temporary :
    fs_exists fs_empty
        ((downloader.construct "root" "http://h").get_path "a.tmp" "G" 1) = false
      ∧ fs_path.replace_extension
          ((downloader.construct "root" "http://h").get_path "a.tmp" "G" 1) ".tmp"
            = (downloader.construct "root" "http://h").get_path "a.tmp" "G" 1
      ∧ ((downloader.construct "root" "http://h").download server_abc (parser_count 1)
          fs_empty "a.tmp" "G" 1).outcome = Outcome.returned true
      ∧ ((downloader.construct "root" "http://h").download server_abc (parser_count 1)
          fs_empty "a.tmp" "G" 1).fs
          ((downloader.construct "root" "http://h").get_path "a.tmp" "G" 1)
            = some (Node.file "abc")
      ∧ ((downloader.construct "root" "http://h").download server_abc (parser_count 1)
          fs_empty "a.tmp" "G" 1).fs
          (fs_path.replace_extension
            ((downloader.construct "root" "http://h").get_path "a.tmp" "G" 1) ".tmp")
            = some (Node.file "abc") := by
  decide

/-- C7: `download` and `get_path` agree on the location. Whenever `download` returns
`true`, something exists afterwards at `get_path`, which is the cache root joined with
`get_relative_path_str` and takes no filesystem as argument. -/
theorem download_success_at_get_path (d : downloader) (server : Server) (parser : Parser)
    (fs : FS) (name guid : String) (age : Nat)
    (succeeded : (d.download server parser fs name guid age).outcome
      = Outcome.returned true) :
    fs_exists (d.download server parser fs name guid age).fs (d.get_path name guid age)
        = true
      ∧ d.get_path name guid age
        = fs_path.append d.path_ (get_relative_path_str name guid age) := by
  refine ⟨?_, rfl⟩
  unfold downloader.get_path
  simp only
  generalize hr : d.download server parser fs name guid age = r at succeeded ⊢
  unfold downloader.download at hr
  simp only at hr
  split at hr
  · rename_i hit
    subst hr
    exact hit
  · split at hr
    · subst hr; simp at succeeded
    · split at hr
      · subst hr; simp at succeeded
      · split at hr
        · subst hr; simp at succeeded
        · split at hr
          · subst hr; simp at succeeded
          · split at hr
            · subst hr; simp at succeeded
            · split at hr
              · subst hr; simp at succeeded
              · split at hr
                · subst hr; simp at succeeded
                · subst hr; simp at succeeded
                · split at hr
                  · subst hr; simp at succeeded
                  · rename_i fs3 hren
                    subst hr
                    exact rename_target _ fs3 _ _ hren

/-- C7 at a concrete input: a fresh download into the empty filesystem. -/
theorem download_success_at_get_path_witness :
    ((downloader.construct "root" "http://h").download server_abc (parser_count 1)
        fs_empty "a.pdb" "G" 1).outcome = Outcome.returned true
      ∧ fs_exists ((downloader.construct "root" "http://h").download server_abc
          (parser_count 1) fs_empty "a.pdb" "G" 1).fs
          ((downloader.construct "root" "http://h").get_path "a.pdb" "G" 1) = true
      ∧ (downloader.construct "root" "http://h").get_path "a.pdb" "G" 1
        = fs_path.append (downloader.construct "root" "http://h").path_
            (get_relative_path_str "a.pdb" "G" 1) :=
  ⟨by decide,
    download_success_at_get_path (downloader.construct "root" "http://h") server_abc
      (parser_count 1) fs_empty "a.pdb" "G" 1 (by decide)⟩

/-! ## Construction and validity -/

/-- C8 (the claim fails): a downloader built from a server URL that cannot be split is
not valid, and `download` on it still returns `true` when the target path exists. -/
theorem download_invalid_cache_hit :
    (downloader.construct "root" "/symbols").valid = false
      ∧ ((downloader.construct "root" "/symbols").download server_down (parser_count 1)
          (fs_single "root/a.pdb/G1/a.pdb" "old") "a.pdb" "G" 1).outcome
            = Outcome.returned true := by
  decide

/-- C8 as amended: `download` does not consult `valid()`. For a downloader whose
`valid()` is false the stored split is the pair of empty strings; on a cache hit
`download` returns `true` without a request and without change to the filesystem;
when the target is absent it asks a client built from the empty host for the relative
path itself, and it returns `false` with the filesystem unchanged when that request
brings no response or a status other than 200. -/
theorem download_invalid (root url : String) (server : Server) (parser : Parser) (fs : FS)
    (name guid : String) (age : Nat)
    (invalid : (downloader.construct root url).valid = false) :
    (downloader.construct root url).server_split_ = ("", "")
      ∧ (fs_exists fs ((downloader.construct root url).get_path name guid age) = true →
          ((downloader.construct root url).download server parser fs name guid age).outcome
              = Outcome.returned true
            ∧ ((downloader.construct root url).download server parser fs name guid
                age).requests = []
            ∧ ((downloader.construct root url).download server parser fs name guid age).fs
              = fs)
      ∧ (fs_exists fs ((downloader.construct root url).get_path name guid age) = false →
          ((downloader.construct root url).download server parser fs name guid
              age).requests = [("", get_relative_path_str name guid age)]
            ∧ ((server "" (get_relative_path_str name guid age) = none
                ∨ ∃ res, server "" (get_relative_path_str name guid age) = some res
                    ∧ res.status ≠ 200) →
              ((downloader.construct root url).download server parser fs name guid
                  age).outcome = Outcome.returned false
                ∧ ((downloader.construct root url).download server parser fs name guid
                  age).fs = fs)) := by
  have hsplit := construct_invalid_split root url invalid
  have hrel : ("" : String) ++ get_relative_path_str name guid age
      = get_relative_path_str name guid age := String.ext (by simp)
  refine ⟨hsplit, fun hit => ?_, fun absent => ⟨?_, ?_⟩⟩
  · rw [download_hit _ server parser fs name guid age hit]
    exact ⟨rfl, rfl, rfl⟩
  · rcases download_requests (downloader.construct root url) server parser fs name guid age
      with ⟨hit, _⟩ | ⟨_, hreq⟩
    · rw [absent] at hit
      exact absurd hit (by decide)
    · rw [hreq, hsplit, hrel]
  · intro hfail
    apply download_transport_failure _ server parser fs name guid age absent
    rw [hsplit]
    simp only [hrel]
    exact hfail

/-- C8 as amended, at a concrete input: an invalid downloader, an absent target and a
peer that is down. -/
theorem download_invalid_witness :
    ((downloader.construct "root" "/symbols").download server_down (parser_count 1)
        fs_empty "a.pdb" "G" 1).requests = [("", get_relative_path_str "a.pdb" "G" 1)]
      ∧ ((downloader.construct "root" "/symbols").download server_down (parser_count 1)
        fs_empty "a.pdb" "G" 1).outcome = Outcome.returned false
      ∧ ((downloader.construct "root" "/symbols").download server_down (parser_count 1)
        fs_empty "a.pdb" "G" 1).fs = fs_empty :=
  ⟨((download_invalid "root" "/symbols" server_down (parser_count 1) fs_empty "a.pdb" "G" 1
      (by decide)).2.2 (by decide)).1,
    ((download_invalid "root" "/symbols" server_down (parser_count 1) fs_empty "a.pdb" "G" 1
      (by decide)).2.2 (by decide)).2 (Or.inl rfl)⟩

/-- C9 (the claim fails): with the cache root `root`, the server URL of the spec's
scenario gives a valid downloader. -/
theorem construct_scenario_is_valid :
    ¬ ((downloader.construct "root"
        "not a url with spaces and no host separator???").valid = false) := by
  decide

/-- C9 as amended: for every non-empty cache root, construction with the server URL
`not a url with spaces and no host separator???` leaves `valid()` true. The constructor
appends a separator and the expression then matches, with the whole URL as host and
scheme and `/` as path. -/
theorem construct_scenario (root : String) (nonempty : root ≠ "") :
    (downloader.construct root "not a url with spaces and no host separator???").valid
        = true
      ∧ (downloader.construct root
          "not a url with spaces and no host separator???").server_split_
        = ("not a url with spaces and no host separator???", "/") := by
  have hsplit : split_server_name
      (normalize_server "not a url with spaces and no host separator???")
        = ("not a url with spaces and no host separator???", "/") := by decide
  unfold downloader.valid downloader.construct
  rw [if_neg (by simp [nonempty])]
  simp only [hsplit]
  rw [if_neg (by decide)]
  exact ⟨rfl, rfl⟩

/-- C9 as amended, at the cache root `cache`. -/
theorem construct_scenario_witness :
    ("cache" : String) ≠ ""
      ∧ (downloader.construct "cache"
          "not a url with spaces and no host separator???").valid = true
      ∧ (downloader.construct "cache"
          "not a url with spaces and no host separator???").server_split_
        = ("not a url with spaces and no host separator???", "/") :=
  ⟨by decide, construct_scenario "cache" (by decide)⟩

/-- C10: the stored split of a valid downloader. When `valid()` is true the host and
scheme part is not empty, the path part starts with `/`, and the two parts together are
the server URL with a `/` appended when it did not end in one; every request `download`
issues is therefore, host and path put together, that normalized URL followed by the
relative path. -/
theorem valid_split (root url : String)
    (valid : (downloader.construct root url).valid = true) :
    (downloader.construct root url).server_split_.1 ≠ ""
      ∧ (downloader.construct root url).server_split_.2.data.head? = some '/'
      ∧ (downloader.construct root url).server_split_.1
          ++ (downloader.construct root url).server_split_.2
        = (if url.data.getLast? = some '/' then url else url ++ "/")
      ∧ ∀ (server : Server) (parser : Parser) (fs : FS) (name guid : String) (age : Nat),
          ∀ rq ∈ ((downloader.construct root url).download server parser fs name guid
              age).requests,
            rq.1 ++ rq.2 = (if url.data.getLast? = some '/' then url else url ++ "/")
              ++ get_relative_path_str name guid age := by
  obtain ⟨hsplit, hne⟩ := construct_valid_split root url valid
  have hvalid := split_server_name_valid _ hne
  rw [hsplit]
  rw [normalize_server_eq] at hvalid hne ⊢
  refine ⟨hne, hvalid.1, hvalid.2, ?_⟩
  intro server parser fs name guid age rq hrq
  rcases download_requests (downloader.construct root url) server parser fs name guid age
    with ⟨_, hreq⟩ | ⟨_, hreq⟩
  · rw [hreq] at hrq
    simp at hrq
  · rw [hreq, hsplit, normalize_server_eq] at hrq
    simp only [List.mem_singleton] at hrq
    subst hrq
    simp only
    conv_rhs => rw [← hvalid.2]
    exact String.ext (by simp)

/-- C10 at a concrete input: `http://msdl.microsoft.com/download/symbols`. -/
theorem valid_split_witness :
    (downloader.construct "root" "http://msdl.microsoft.com/download/symbols").server_split_
        = ("http://msdl.microsoft.com", "/download/symbols/")
      ∧ (downloader.construct "root"
          "http://msdl.microsoft.com/download/symbols").server_split_.1
          ++ (downloader.construct "root"
            "http://msdl.microsoft.com/download/symbols").server_split_.2
        = (if "http://msdl.microsoft.com/download/symbols".data.getLast? = some '/'
            then "http://msdl.microsoft.com/download/symbols"
            else "http://msdl.microsoft.com/download/symbols" ++ "/") :=
  ⟨by decide,
    (valid_split "root" "http://msdl.microsoft.com/download/symbols" (by decide)).2.2.1⟩

/-! ## The temporary file -/

/-- C11 (the code departs from the claim): for the name `a.tmp` the path `download`
writes to is the final target path. The target is absent and the peer answers 200 with
a matching length; with a parser that raises on the written file, the call ends in that
exception, before any rename, and the final path already holds the body. -/
theorem download_writes_final_name :
    fs_path.replace_extension
        ((downloader.construct "root" "http://h").get_path "a.tmp" "G" 1) ".tmp"
        = (downloader.construct "root" "http://h").get_path "a.tmp" "G" 1
      ∧ fs_exists fs_empty
          ((downloader.construct "root" "http://h").get_path "a.tmp" "G" 1) = false
      ∧ ((downloader.construct "root" "http://h").download server_abc parser_raises
          fs_empty "a.tmp" "G" 1).outcome = Outcome.raised Exn.parser_error
      ∧ ((downloader.construct "root" "http://h").download server_abc parser_raises
          fs_empty "a.tmp" "G" 1).fs
          ((downloader.construct "root" "http://h").get_path "a.tmp" "G" 1)
            = some (Node.file "abc") := by
  decide

/-- C12 (the claim fails): with the name `ntoskrnl.pdb` and the guid
`G1/ntoskrnl.pdb/../../G` the target is absent, the peer answers 200 with a matching
length that is not zero and the parser reports no type information; `download` returns
`false` and the temporary path holds the body, but a directory is found at the target
path, made by `create_directories` on its way to the parent of the target. -/
theorem download_validation_failure_leaves_directory :
    fs_exists fs_empty ((downloader.construct "root" "http://h").get_path
        "ntoskrnl.pdb" "G1/ntoskrnl.pdb/../../G" 1) = false
      ∧ ((downloader.construct "root" "http://h").download server_abc (parser_count 0)
          fs_empty "ntoskrnl.pdb" "G1/ntoskrnl.pdb/../../G" 1).outcome
        = Outcome.returned false
      ∧ fs_lookup ((downloader.construct "root" "http://h").download server_abc
          (parser_count 0) fs_empty "ntoskrnl.pdb" "G1/ntoskrnl.pdb/../../G" 1).fs
          (fs_path.replace_extension ((downloader.construct "root" "http://h").get_path
            "ntoskrnl.pdb" "G1/ntoskrnl.pdb/../../G" 1) ".tmp")
        = some (Node.file "abc")
      ∧ fs_lookup ((downloader.construct "root" "http://h").download server_abc
          (parser_count 0) fs_empty "ntoskrnl.pdb" "G1/ntoskrnl.pdb/../../G" 1).fs
          ((downloader.construct "root" "http://h").get_path
            "ntoskrnl.pdb" "G1/ntoskrnl.pdb/../../G" 1)
        = some Node.directory := by
  decide

/-- C12 as amended: a rejected download. The name is `ntoskrnl.pdb` or `ntkrnlmp.pdb`,
the target path has no `.` and no `..` component, and the target is absent; the peer
answers 200 with a `Content-Length` that converts to the length of the body, which is
not zero; the directories are created, the temporary file opens, and the parser reports
a type-information count of zero for the file written there. Then `download` returns
`false`, nothing exists at the target path, and the temporary path holds the whole
body. -/
theorem download_validation_failure (d : downloader) (server : Server) (parser : Parser)
    (fs fs1 : FS) (name guid value : String) (age : Nat) (res : Response)
    (stats : pdb_stats)
    (kernel : name = "ntoskrnl.pdb" ∨ name = "ntkrnlmp.pdb")
    (no_dots : fs_path.has_no_dots (d.get_path name guid age) = true)
    (absent : fs_exists fs (d.get_path name guid age) = false)
    (answer : server d.server_split_.1
        (d.server_split_.2 ++ get_relative_path_str name guid age) = some res)
    (ok200 : res.status = 200)
    (header : res.content_length = some value)
    (converts : stoul value = Converted.value res.body.length)
    (nonzero : res.body.length ≠ 0)
    (dirs : create_directories fs (fs_path.parent_path (d.get_path name guid age))
      = some fs1)
    (opens : can_open fs1 (fs_path.replace_extension (d.get_path name guid age) ".tmp")
      = true)
    (parsed : parser
        (write_file fs1 (fs_path.replace_extension (d.get_path name guid age) ".tmp")
          res.body)
        (fs_path.replace_extension (d.get_path name guid age) ".tmp") = some stats)
    (no_types : stats.type_count = 0) :
    (d.download server parser fs name guid age).outcome = Outcome.returned false
      ∧ fs_exists (d.download server parser fs name guid age).fs
          (d.get_path name guid age) = false
      ∧ fs_lookup (d.download server parser fs name guid age).fs
          (fs_path.replace_extension (d.get_path name guid age) ".tmp")
        = some (Node.file res.body) := by
  unfold downloader.get_path at *
  simp only at *
  have plain := kernel_target_plain d.path_ name guid age kernel no_dots
  have hgone : fs (location_key
      (fs_path.is_absolute (fs_path.append d.path_ (get_relative_path_str name guid age)))
      (fs_path.components (fs_path.append d.path_ (get_relative_path_str name guid age))))
      = none := by
    have := absent
    unfold fs_exists at this
    rw [fs_lookup_plain fs _ plain] at this
    simpa using this
  have hkeep := plain_target_after_directories fs fs1 _ plain hgone dirs
  have htarget := kernel_target_after_write fs1 d.path_ name guid res.body age kernel
    plain hkeep
  have htmp := write_file_lookup fs1 _ res.body opens
  have hvalid : downloader.is_valid_pdb parser
      (write_file fs1 (fs_path.replace_extension
        (fs_path.append d.path_ (get_relative_path_str name guid age)) ".tmp") res.body)
      name (fs_path.replace_extension
        (fs_path.append d.path_ (get_relative_path_str name guid age)) ".tmp")
      = some false := by
    unfold downloader.is_valid_pdb
    simp only [parsed, to_lower, kernel, no_types, if_true]
  have hr : d.download server parser fs name guid age
      = ⟨Outcome.returned false,
          write_file fs1 (fs_path.replace_extension
            (fs_path.append d.path_ (get_relative_path_str name guid age)) ".tmp")
            res.body,
          [(d.server_split_.1, d.server_split_.2 ++ get_relative_path_str name guid age)]⟩
      := by
    unfold downloader.download
    simp only [absent, answer, ok200, header, converts, nonzero, dirs, opens, hvalid,
      Bool.false_eq_true, if_false, ne_eq, not_true_eq_false, or_self, Bool.not_true]
  rw [hr]
  simp only [true_and]
  exact ⟨htarget, htmp⟩

/-- C12 as amended, at a concrete input: `ntoskrnl.pdb`, three bytes announced and
received, no type information. -/
theorem download_validation_failure_witness :
    ((downloader.construct "root" "http://h").download server_abc (parser_count 0)
        fs_empty "ntoskrnl.pdb" "G" 1).outcome = Outcome.returned false
      ∧ fs_exists ((downloader.construct "root" "http://h").download server_abc
          (parser_count 0) fs_empty "ntoskrnl.pdb" "G" 1).fs
          ((downloader.construct "root" "http://h").get_path "ntoskrnl.pdb" "G" 1)
        = false
      ∧ fs_lookup ((downloader.construct "root" "http://h").download server_abc
          (parser_count 0) fs_empty "ntoskrnl.pdb" "G" 1).fs
          (fs_path.replace_extension
            ((downloader.construct "root" "http://h").get_path "ntoskrnl.pdb" "G" 1)
            ".tmp")
        = some (Node.file "abc") :=
  download_validation_failure (downloader.construct "root" "http://h") server_abc
    (parser_count 0) fs_empty
    ((create_directories fs_empty (fs_path.parent_path
      ((downloader.construct "root" "http://h").get_path "ntoskrnl.pdb" "G" 1))).get
      (by decide))
    "ntoskrnl.pdb" "G" "3" 1 ⟨200, some "3", "abc"⟩ ⟨0⟩
    (Or.inl rfl) (by decide) (by decide) rfl rfl rfl (by decide) (by decide)
    (Option.some_get _).symm (by decide) rfl rfl

/-- C13 (the code departs from the claim): `download` raises. The target is absent and
the peer answers 200; with the `Content-Length` values `abc` and the empty text the call
ends in `std::invalid_argument`, with 18446744073709551616 in `std::out_of_range`, both
from `std::stoul` at source line 66, and the filesystem is as it was. -/
theorem download_raises_on_bad_length :
    ((downloader.construct "root" "http://h").download (server_with_length "abc")
        (parser_count 1) fs_empty "a.pdb" "G" 1).outcome
        = Outcome.raised Exn.invalid_argument
      ∧ ((downloader.construct "root" "http://h").download (server_with_length "")
        (parser_count 1) fs_empty "a.pdb" "G" 1).outcome
        = Outcome.raised Exn.invalid_argument
      ∧ ((downloader.construct "root" "http://h").download
        (server_with_length "18446744073709551616")
        (parser_count 1) fs_empty "a.pdb" "G" 1).outcome
        = Outcome.raised Exn.out_of_range
      ∧ ∀ r, ((downloader.construct "root" "http://h").download
        (server_with_length "abc") (parser_count 1) fs_empty "a.pdb" "G" 1).outcome
        ≠ Outcome.returned r := by
  refine ⟨by decide, by decide, by decide, ?_⟩
  intro r
  cases r <;> decide

/-! ## The shape of the relative path -/

/-- C15: the relative path is `A ++ "/" ++ G ++ h ++ "/" ++ A` with `A = to_lower name`,
`G = to_upper guid` and `h = hex age`. The text `h` is not empty, holds only the digits
`0-9a-f`, does not start with `0x`, starts with `0` only when the age is zero (and is
then `0`), and read as a hexadecimal number it is the age; 255 gives `ff` and 16 gives
`10`. It holds for every natural number, so for every 32-bit age. -/
theorem relative_path_shape (name guid : String) (age : Nat) :
    get_relative_path_str name guid age
        = to_lower name ++ "/" ++ to_upper guid ++ hex age ++ "/" ++ to_lower name
      ∧ (hex age).data ≠ []
      ∧ (∀ c ∈ (hex age).data, c ∈ "0123456789abcdef".data)
      ∧ "0x".data.isPrefixOf (hex age).data = false
      ∧ ((hex age).data.head? = some '0' → age = 0)
      ∧ (age = 0 → hex age = "0")
      ∧ hex_value (hex age) = age
      ∧ hex 255 = "ff"
      ∧ hex 16 = "10" := by
  refine ⟨rfl, ?_, hex_digits age, ?_, hex_first_digit age, ?_, hex_value_hex age,
    by decide, by decide⟩
  · obtain ⟨c, hc, _⟩ := hex_has_non_sep age
    exact List.ne_nil_of_mem hc
  · cases hp : "0x".data.isPrefixOf (hex age).data
    · rfl
    · obtain ⟨t, ht⟩ := List.isPrefixOf_iff_prefix.mp hp
      have hx : 'x' ∈ (hex age).data := by
        rw [← ht]
        exact List.mem_append_left _ (by decide)
      exact absurd (hex_digits age 'x' hx) (by decide)
  · intro h0
    subst h0
    decide

/-- C18: distinct keys get distinct relative paths when the guids have one length. The
names hold no `/` and the guids are equally long; if `get_relative_path_str` gives the
same text for both keys then the names, the guids and the ages are equal. (For the
guids the absence of `/` is not needed.) -/
theorem relative_path_injective (name1 guid1 name2 guid2 : String) (age1 age2 : Nat)
    (plain1 : ∀ c ∈ name1.data, c ≠ '/') (plain2 : ∀ c ∈ name2.data, c ≠ '/')
    (same_length : guid1.length = guid2.length)
    (same_path : get_relative_path_str name1 guid1 age1
      = get_relative_path_str name2 guid2 age2) :
    name1 = name2 ∧ guid1 = guid2 ∧ age1 = age2 := by
  have h := congrArg String.data same_path
  simp only [get_relative_path_str, to_lower, to_upper, String.data_append,
    List.append_assoc] at h
  simp only [List.singleton_append] at h
  obtain ⟨hname, hrest⟩ := split_at_first '/' _ _ _ _
    (fun hm => plain1 _ hm rfl) (fun hm => plain2 _ hm rfl) h
  rw [hname, ← List.append_assoc, ← List.append_assoc guid2.data] at hrest
  have hmid := List.append_cancel_right hrest
  obtain ⟨hguid, hhex⟩ := List.append_inj hmid same_length
  exact ⟨String.ext hname, String.ext hguid, hex_injective _ _ (String.ext hhex)⟩

/-- C18 at a concrete input: two keys with the same path text are the same key. -/
theorem relative_path_injective_witness :
    get_relative_path_str "a.pdb" "ABCD" 18 = get_relative_path_str "a.pdb" "ABCD" 18
      ∧ ("a.pdb" : String) = "a.pdb" ∧ ("ABCD" : String) = "ABCD" ∧ (18 : Nat) = 18 :=
  ⟨rfl, relative_path_injective "a.pdb" "ABCD" "a.pdb" "ABCD" 18 18
    (by decide) (by decide) rfl rfl⟩

/-! ## The split of the server address -/

/-- C16 (the claim fails): for the URL made of `http://`, the host `h` and the path `/a`,
a line feed and `b`, the expression does not match after normalization, because `.`
matches no line terminator; the split is the pair of empty strings. -/
theorem split_rejects_line_feed :
    split_server_name (normalize_server ("http://" ++ "h" ++ "/a\nb")) = ("", "")
      ∧ split_server_name (normalize_server ("http://" ++ "h" ++ "/a\nb"))
        ≠ ("http://" ++ "h", "/a\nb/") := by
  decide

/-- C16 as amended: the server URL is `S ++ H ++ P` with `S` being `http://` or
`https://`, `H` not empty and without `/`, `P` empty or starting with `/`, and `P`
holding no line feed and no carriage return. After the normalization of the
constructor, `split_server_name` gives `S ++ H` as host and scheme and, as path, `P`
with a `/` appended when it does not end in one (`/` when `P` is empty). -/
theorem split_scheme_host_path (S H P : String)
    (scheme : S = "http://" ∨ S = "https://")
    (host : H ≠ "") (plain : ∀ c ∈ H.data, c ≠ '/')
    (path : P = "" ∨ P.data.head? = some '/')
    (one_line : ∀ c ∈ P.data, c ≠ '\n' ∧ c ≠ '\r') :
    split_server_name (normalize_server (S ++ H ++ P))
      = (S ++ H, if P.data.getLast? = some '/' then P else P ++ "/") := by
  have hhost : H.data ≠ [] := fun h => host (String.ext h)
  obtain ⟨tail, hparts, hclean⟩ := normalized_path_parts P path one_line
  rw [normalize_scheme_host_path S H P hhost plain]
  unfold split_server_name
  rw [regex_match_server_of_parts S H _ scheme hhost
    (fun c hc => by simpa [fs_path.is_sep] using plain c hc) tail hparts hclean]

/-- C16 as amended, at a concrete input: `https://`, `msdl.microsoft.com`,
`/download/symbols`. -/
theorem split_scheme_host_path_witness :
    split_server_name
        (normalize_server ("https://" ++ "msdl.microsoft.com" ++ "/download/symbols"))
      = ("https://" ++ "msdl.microsoft.com",
          if "/download/symbols".data.getLast? = some '/' then "/download/symbols"
          else "/download/symbols" ++ "/") :=
  split_scheme_host_path "https://" "msdl.microsoft.com" "/download/symbols"
    (Or.inr rfl) (by decide) (by decide) (Or.inr rfl) (by decide)

/-- C17 (the claim fails): the root `root` and the server URL `h/a`, a line feed, `b`
are not empty and the URL does not begin with `/`, yet `valid()` is false. -/
theorem valid_rejects_line_feed :
    ("root" : String) ≠ "" ∧ ("h/a\nb" : String) ≠ ""
      ∧ ("h/a\nb" : String).data.head? ≠ some '/'
      ∧ (downloader.construct "root" "h/a\nb").valid = false := by
  decide

/-- C17 as amended: `valid()` is true after construction exactly when the root is not
empty, the server URL is not empty and does not begin with `/`, and no line feed or
carriage return comes after the separator that follows the host in the normalized URL
(the host starts after `http://` or `https://` when a host follows there, else at the
start). For a URL without line feed and carriage return the first three conditions
decide alone: missing or unknown scheme, spaces, or no `/` at all are not rejected. -/
theorem valid_iff (root url : String) :
    ((downloader.construct root url).valid = true ↔
        root ≠ "" ∧ url ≠ "" ∧ url.data.head? ≠ some '/'
          ∧ ∀ c ∈ url_path_tail (normalize_server url), c ≠ '\n' ∧ c ≠ '\r')
      ∧ ((∀ c ∈ url.data, c ≠ '\n' ∧ c ≠ '\r') →
        ((downloader.construct root url).valid = true ↔
          root ≠ "" ∧ url ≠ "" ∧ url.data.head? ≠ some '/')) := by
  have hterm : ∀ c : Char, is_line_terminator c = false ↔ c ≠ '\n' ∧ c ≠ '\r' := by
    intro c
    simp [is_line_terminator]
  have main : (downloader.construct root url).valid = true ↔
      root ≠ "" ∧ url ≠ "" ∧ url.data.head? ≠ some '/'
        ∧ ∀ c ∈ url_path_tail (normalize_server url), c ≠ '\n' ∧ c ≠ '\r' := by
    rw [construct_valid_iff, regex_match_isSome_iff _ (normalize_server_last url),
      starts_with_host_iff]
    constructor
    · rintro ⟨hr, hu, ⟨_, hhead⟩, hclean⟩
      rw [normalize_server_head url hu] at hhead
      exact ⟨hr, hu, hhead, fun c hc => (hterm c).mp (hclean c hc)⟩
    · rintro ⟨hr, hu, hhead, hclean⟩
      refine ⟨hr, hu, ⟨?_, ?_⟩, fun c hc => (hterm c).mpr (hclean c hc)⟩
      · intro hnil
        have := normalize_server_last url
        rw [hnil] at this
        simp at this
      · rw [normalize_server_head url hu]
        exact hhead
  refine ⟨main, fun hline => ?_⟩
  rw [main]
  constructor
  · rintro ⟨hr, hu, hhead, _⟩
    exact ⟨hr, hu, hhead⟩
  · rintro ⟨hr, hu, hhead⟩
    refine ⟨hr, hu, hhead, fun c hc => ?_⟩
    rcases normalize_server_mem url c (url_path_tail_subset _ c hc) with h | h
    · exact hline c h
    · subst h
      exact ⟨by decide, by decide⟩

/-- C17 as amended, at concrete inputs: an unknown scheme with a space is accepted, the
same URL with a line feed in its path is not. -/
theorem valid_iff_witness :
    (downloader.construct "root" "ftp://x y").valid = true
      ∧ ¬ ((downloader.construct "root" "ftp://x/y\n").valid = true) :=
  ⟨(valid_iff "root" "ftp://x y").1.mpr ⟨by decide, by decide, by decide, by decide⟩,
    fun h => absurd ((valid_iff "root" "ftp://x/y\n").1.mp h).2.2.2 (by decide)⟩

end QueryPdb
